import Mathlib

/-!
# Verification of the LightBot research core

Shallow embedding of the LightBot simulation engine, program executor and
solvers from `src/develop/research/`, together with proofs settling the
specification claims about them.

The embedding mirrors the Python sources:
* `lightbot/instructions.py` — the `Instruction` enumeration;
* `lightbot/engine.py`       — `LightBotEngine` (state, `step`, `is_solved`,
  `get_state_hash`);
* `lightbot/executor.py`     — `Program` and `ProgramExecutor.execute`;
* `solvers/bfs_solver.py`, `solvers/ids_solver.py` — the flat solvers;
* `solvers/procedure_solver.py` — `ProcedureSolver` / `OptimizedProcedureSolver`;
* `solvers/resumable_procedure_solver.py` — `SolverCheckpoint` and
  `ResumableProcedureSolver`.

`lightbot/levels.py` is not part of the sources; the level data model is
taken from the spec (§3): a grid of tiles (kind and height), a start pose,
and the direction-delta table for the four facings.  Engine state is
embedded with the mutable parts of `LightBotEngine`: bot position and
facing, the mutable copy of tile heights (a function), and the set of lit
lights (kept as a lexicographically sorted duplicate-free list — the only
observations Python makes of the set are membership, size, and `sorted()`).
The `elevator_heights` dict is updated in lock-step with `map_data[..]["h"]`
in `_light` (engine.py lines 225-228), so it is embedded as the read of the
height map at the elevator positions.
-/

namespace LightBot

/-- `Instruction` from `lightbot/instructions.py` (values 0..6). -/
inductive Instr where
  | walk
  | jump
  | light
  | turnLeft
  | turnRight
  | proc1
  | proc2
deriving DecidableEq, Repr

/-- Tile kinds `TILE_BASIC`, `TILE_LIGHT`, `TILE_ELEVATOR`. -/
inductive TileKind where
  | basic
  | light
  | elevator
deriving DecidableEq, Repr

/-- A map cell: `{"t": kind, "h": height}`. -/
structure Tile where
  t : TileKind
  h : Int
deriving DecidableEq, Repr

/-- Modelled from the spec: `lightbot/levels.py` (with `DIRECTION_DELTAS`) is
absent from the sources.  The spec says the bot has one of four facings in
cyclic order, each turn rotating by one step, a move going one cell in the
facing direction.  The deltas are the four unit steps, rotated by 90° per
increment of the direction index. -/
def dirDelta (d : Int) : Int × Int :=
  if d = 0 then (1, 0)
  else if d = 1 then (0, 1)
  else if d = 2 then (-1, 0)
  else (0, -1)

/-- A level after `LightBotEngine._init_from_level`'s map transformation:
`width`/`height` are the transformed dimensions, `tiles x y` the transformed
`map_data[x][y]`, and the start pose comes from the level data. -/
structure Level where
  width : Int
  height : Int
  tiles : Int → Int → Tile
  startX : Int
  startY : Int
  startDir : Int

/-- The scan of the transformed map collecting light positions
(engine.py lines 81-88; `x` outer, `y` inner, so the list is
lexicographically sorted). -/
def Level.lightPositions (lvl : Level) : List (Int × Int) :=
  (List.range lvl.width.toNat).flatMap fun x =>
    (List.range lvl.height.toNat).filterMap fun y =>
      if (lvl.tiles x y).t = TileKind.light then some ((x : Int), (y : Int)) else none

/-- The scan of the transformed map collecting elevator positions. -/
def Level.elevatorPositions (lvl : Level) : List (Int × Int) :=
  (List.range lvl.width.toNat).flatMap fun x =>
    (List.range lvl.height.toNat).filterMap fun y =>
      if (lvl.tiles x y).t = TileKind.elevator then some ((x : Int), (y : Int)) else none

/-- The mutable engine state: bot pose, the mutable copy of tile heights,
and the set of currently lit lights. -/
structure EngineState where
  botX : Int
  botY : Int
  botDir : Int
  mapH : Int → Int → Int
  lightsOn : List (Int × Int)

/-- `_init_from_level` / `reset`: start pose from the level, heights copied
from the map, no lights lit. -/
def Level.init (lvl : Level) : EngineState :=
  { botX := lvl.startX
    botY := lvl.startY
    botDir := lvl.startDir
    mapH := fun x y => (lvl.tiles x y).h
    lightsOn := [] }

/-- `_is_valid_position`. -/
def isValidPos (lvl : Level) (x y : Int) : Bool :=
  decide (0 ≤ x ∧ x < lvl.width ∧ 0 ≤ y ∧ y < lvl.height)

/-- `get_current_height`: unguarded read of the height under the bot. -/
def currentHeight (s : EngineState) : Int :=
  s.mapH s.botX s.botY

/-- `get_tile_height`: guarded read, `-1` out of bounds. -/
def tileHeight (lvl : Level) (s : EngineState) (x y : Int) : Int :=
  if isValidPos lvl x y then s.mapH x y else -1

/-- `get_tile_type`: guarded read; `none` models the empty string returned
out of bounds. -/
def tileType (lvl : Level) (x y : Int) : Option TileKind :=
  if isValidPos lvl x y then some (lvl.tiles x y).t else none

/-- `_get_target_position`. -/
def targetPos (s : EngineState) : Int × Int :=
  (s.botX + (dirDelta s.botDir).1, s.botY + (dirDelta s.botDir).2)

/-- `_walk`: move forward iff the target cell is in bounds and its height
equals the current height. -/
def walkStep (lvl : Level) (s : EngineState) : Bool × EngineState :=
  let tx := (targetPos s).1
  let ty := (targetPos s).2
  if ¬ isValidPos lvl tx ty then (false, s)
  else if currentHeight s = tileHeight lvl s tx ty then
    (true, { s with botX := tx, botY := ty })
  else (false, s)

/-- `_jump`: move forward iff the target cell is in bounds and
(target height − current height = 1 or current height > target height). -/
def jumpStep (lvl : Level) (s : EngineState) : Bool × EngineState :=
  let tx := (targetPos s).1
  let ty := (targetPos s).2
  if ¬ isValidPos lvl tx ty then (false, s)
  else if tileHeight lvl s tx ty - currentHeight s = 1 ∨
          currentHeight s > tileHeight lvl s tx ty then
    (true, { s with botX := tx, botY := ty })
  else (false, s)

/-- Lexicographic order on positions, as Python compares `(x, y)` tuples. -/
def posLe (p q : Int × Int) : Bool :=
  decide (p.1 < q.1 ∨ (p.1 = q.1 ∧ p.2 ≤ q.2))

/-- Toggle membership of `p` in the lit set, keeping the list sorted:
`remove` if present, insert in order if absent. -/
def toggleLight (l : List (Int × Int)) (p : Int × Int) : List (Int × Int) :=
  if p ∈ l then l.erase p else l.orderedInsert (fun a b => posLe a b = true) p

/-- `_light`: toggle the light under the bot, or raise an elevator by 2
(mod 6), or do nothing. -/
def lightStep (lvl : Level) (s : EngineState) : Bool × EngineState :=
  match tileType lvl s.botX s.botY with
  | some TileKind.light =>
      (true, { s with lightsOn := toggleLight s.lightsOn (s.botX, s.botY) })
  | some TileKind.elevator =>
      let oldH := s.mapH s.botX s.botY
      let newH := (oldH + 2) % 6
      (true, { s with mapH := fun x y =>
                if x = s.botX ∧ y = s.botY then newH else s.mapH x y })
  | _ => (false, s)

/-- `_turn_left`. -/
def turnLeftStep (s : EngineState) : Bool × EngineState :=
  (true, { s with botDir := (s.botDir + 1) % 4 })

/-- `_turn_right`. -/
def turnRightStep (s : EngineState) : Bool × EngineState :=
  (true, { s with botDir := (s.botDir - 1) % 4 })

/-- `LightBotEngine.step`: dispatch on the instruction; `PROC1`/`PROC2` are
no-ops at engine level. -/
def stepFn (lvl : Level) (i : Instr) (s : EngineState) : Bool × EngineState :=
  match i with
  | Instr.walk => walkStep lvl s
  | Instr.jump => jumpStep lvl s
  | Instr.light => lightStep lvl s
  | Instr.turnLeft => turnLeftStep s
  | Instr.turnRight => turnRightStep s
  | Instr.proc1 => (false, s)
  | Instr.proc2 => (false, s)

/-- `is_solved`: every light lit, compared by counts as the code does. -/
def isSolved (lvl : Level) (s : EngineState) : Bool :=
  s.lightsOn.length == lvl.lightPositions.length

/-- Run a sequence of `step` calls from a state. -/
def runSteps (lvl : Level) (s : EngineState) (seq : List Instr) : EngineState :=
  seq.foldl (fun s i => (stepFn lvl i s).2) s

/-! ### Program and executor (`lightbot/executor.py`) -/

/-- `Program`: main routine plus two procedures. -/
structure Program where
  main : List Instr
  proc1 : List Instr
  proc2 : List Instr
deriving DecidableEq, Repr

/-- `Program.total_size`. -/
def Program.totalSize (p : Program) : Nat :=
  p.main.length + p.proc1.length + p.proc2.length

/-- One iteration of `ProgramExecutor.execute`'s loop body after the pop:
a `PROC1`/`PROC2` instruction prepends the procedure body to the remaining
queue, any other instruction is executed on the engine. -/
def consumeInstr (lvl : Level) (p : Program) (i : Instr) (rest : List Instr)
    (s : EngineState) : List Instr × EngineState :=
  match i with
  | Instr.proc1 => (p.proc1 ++ rest, s)
  | Instr.proc2 => (p.proc2 ++ rest, s)
  | _ => (rest, (stepFn lvl i s).2)

/-- The `while queue and steps < self.max_steps` loop of
`ProgramExecutor.execute`; on exit it returns `(is_solved(), steps)`.
The loop guard `steps < max_steps` is made structural by recursing on
`fuel = max_steps - steps` (so `steps < max_steps` iff `fuel > 0`). -/
def execGo (lvl : Level) (p : Program) :
    Nat → List Instr → EngineState → Nat → Bool × Nat
  | _, [], s, steps => (isSolved lvl s, steps)
  | 0, _ :: _, s, steps => (isSolved lvl s, steps)
  | fuel + 1, i :: rest, s, steps =>
      let c := consumeInstr lvl p i rest s
      if isSolved lvl c.2 then (true, steps + 1)
      else execGo lvl p fuel c.1 c.2 (steps + 1)

/-- `ProgramExecutor.execute`: reset the engine, run MAIN through the queue
with the step budget. -/
def execute (lvl : Level) (maxSteps : Nat) (p : Program) : Bool × Nat :=
  execGo lvl p maxSteps p.main lvl.init 0

/-- The executor's configuration (pending queue, engine state) after `n`
consumed instructions, `none` if the queue emptied strictly earlier; each
procedure-call expansion counts as one consumed instruction. -/
def execCfg (lvl : Level) (p : Program) : Nat → Option (List Instr × EngineState)
  | 0 => some (p.main, lvl.init)
  | n + 1 =>
    match execCfg lvl p n with
    | none => none
    | some ([], _) => none
    | some (i :: rest, s) => some (consumeInstr lvl p i rest s)

/-! ### State hash (`LightBotEngine.get_state_hash`) -/

/-- Lexicographic order on `((x, y), h)` items, as Python's `sorted`
compares nested tuples. -/
def assocLe (a b : (Int × Int) × Int) : Bool :=
  decide (a.1.1 < b.1.1 ∨ (a.1.1 = b.1.1 ∧ (a.1.2 < b.1.2 ∨ (a.1.2 = b.1.2 ∧ a.2 ≤ b.2))))

/-- `sorted` on a set of positions (the elements are pairwise distinct, so
any sorting algorithm produces Python's result; insertion sort keeps the
definition kernel-computable). -/
def sortPairs (l : List (Int × Int)) : List (Int × Int) :=
  l.insertionSort (fun a b => posLe a b = true)

/-- `sorted(elevator_heights.items())` (keys pairwise distinct). -/
def sortAssoc (l : List ((Int × Int) × Int)) : List ((Int × Int) × Int) :=
  l.insertionSort (fun a b => assocLe a b = true)

/-- The value of `get_state_hash()`: a 4-tuple, extended by the sorted
elevator-height items when any elevator exists. -/
structure StateHash where
  x : Int
  y : Int
  dir : Int
  lights : List (Int × Int)
  elevs : Option (List ((Int × Int) × Int))
deriving DecidableEq, Repr

/-- `get_state_hash`.  The `elevator_heights` dict is the height map read
at the elevator positions (it is written in lock-step with `map_data` in
`_light`). -/
def stateHash (lvl : Level) (s : EngineState) : StateHash :=
  let elevAssoc := lvl.elevatorPositions.map fun p => (p, s.mapH p.1 p.2)
  { x := s.botX
    y := s.botY
    dir := s.botDir
    lights := sortPairs s.lightsOn
    elevs := if elevAssoc.isEmpty then none else some (sortAssoc elevAssoc) }

/-! ### Procedure search (`solvers/procedure_solver.py`)

Both `ProcedureSolver` and `ResumableProcedureSolver` share the same
instruction alphabets, sequence generator, and static validity check. -/

/-- `BASIC_INSTRUCTIONS` (ordering as in the source). -/
def BASIC_INSTRUCTIONS : List Instr :=
  [Instr.walk, Instr.jump, Instr.light, Instr.turnLeft, Instr.turnRight]

/-- `ALL_INSTRUCTIONS`. -/
def ALL_INSTRUCTIONS : List Instr :=
  BASIC_INSTRUCTIONS ++ [Instr.proc1, Instr.proc2]

/-- `itertools.product(instructions, repeat=length)`: all sequences of the
given length, leftmost slot varying slowest. -/
def seqProd (instructions : List Instr) : Nat → List (List Instr)
  | 0 => [[]]
  | n + 1 => instructions.flatMap fun i => (seqProd instructions n).map fun t => i :: t

/-- `_generate_sequences`: all sequences of the given length over the
alphabet, skipping sequences that call a procedure that does not exist. -/
def generateSequences (len : Nat) (instructions : List Instr)
    (hasP1 hasP2 : Bool) : List (List Instr) :=
  if len = 0 then [[]]
  else (seqProd instructions len).filter fun seq =>
    !(!hasP1 && seq.contains Instr.proc1) && !(!hasP2 && seq.contains Instr.proc2)

/-- `_get_proc_instructions`. -/
def getProcInstructions (hasP1 hasP2 isP1 : Bool) : List Instr :=
  if isP1 then
    BASIC_INSTRUCTIONS ++ (if hasP2 then [Instr.proc2] else []) ++
      (if hasP1 then [Instr.proc1] else [])
  else
    BASIC_INSTRUCTIONS ++ (if hasP1 then [Instr.proc1] else []) ++
      (if hasP2 then [Instr.proc2] else [])

/-- `_is_valid_program`: MAIN nonempty; a nonempty procedure must be called
from somewhere; the bare self-call and the bare mutual-call cycles are
rejected. -/
def isValidProgram (p : Program) : Bool :=
  if p.main.isEmpty then false
  else if p.proc1 ≠ [] ∧ ¬ p.main.contains Instr.proc1 ∧ ¬ p.proc2.contains Instr.proc1 ∧
      ¬ p.proc1.contains Instr.proc1 then false
  else if p.proc2 ≠ [] ∧ ¬ p.main.contains Instr.proc2 ∧ ¬ p.proc1.contains Instr.proc2 ∧
      ¬ p.proc2.contains Instr.proc2 then false
  else if p.proc1 = [Instr.proc1] then false
  else if p.proc2 = [Instr.proc2] then false
  else if p.proc1 = [Instr.proc2] ∧ p.proc2 = [Instr.proc1] then false
  else true

/-- The size distributions of `_search_size` in generation order:
`main_size` from 1 to `total`, `p1_size` from 0 to the remainder. -/
def buildDistributions (total : Nat) : List (Nat × Nat × Nat) :=
  (List.range' 1 total).flatMap fun m =>
    (List.range (total - m + 1)).map fun p1 => (m, p1, total - m - p1)

/-- The sort key `(d[1] + d[2], d[0])` used by the optimized and resumable
solvers, as a Boolean `≤`. -/
def distLe (a b : Nat × Nat × Nat) : Bool :=
  decide (a.2.1 + a.2.2 < b.2.1 + b.2.2 ∨
    (a.2.1 + a.2.2 = b.2.1 + b.2.2 ∧ a.1 ≤ b.1))

/-- `distributions.sort(key=lambda d: (d[1] + d[2], d[0]))`.  For a fixed
total the key determines the triple, so the generated triples are pairwise
distinct under the key order and any sorting algorithm produces Python's
(stable-sorted) result. -/
def sortedDistributions (total : Nat) : List (Nat × Nat × Nat) :=
  (buildDistributions total).insertionSort (fun a b => distLe a b = true)

/-- The instruction alphabets for a size distribution: MAIN gets all seven
instructions as soon as any procedure exists. -/
def mainAlphabet (p1Size p2Size : Nat) : List Instr :=
  if p1Size > 0 || p2Size > 0 then ALL_INSTRUCTIONS else BASIC_INSTRUCTIONS

/-- The MAIN candidate sequences of a distribution. -/
def mainSeqsOf (mainSize p1Size p2Size : Nat) : List (List Instr) :=
  generateSequences mainSize (mainAlphabet p1Size p2Size) (p1Size > 0) (p2Size > 0)

/-- The PROC1 candidate sequences of a distribution (`[()]` when absent). -/
def p1SeqsOf (p1Size p2Size : Nat) : List (List Instr) :=
  if p1Size > 0 then
    generateSequences p1Size (getProcInstructions (p1Size > 0) (p2Size > 0) true)
      true (p2Size > 0)
  else [[]]

/-- The PROC2 candidate sequences of a distribution (`[()]` when absent). -/
def p2SeqsOf (p1Size p2Size : Nat) : List (List Instr) :=
  if p2Size > 0 then
    generateSequences p2Size (getProcInstructions (p1Size > 0) (p2Size > 0) false)
      (p1Size > 0) true
  else [[]]

/-- `ProcedureSolver._search_distribution`: first solving candidate of the
nested MAIN × PROC1 × PROC2 enumeration, or `none`. -/
def psSearchDistribution (lvl : Level) (maxExec : Nat)
    (mainSize p1Size p2Size : Nat) : Option Program :=
  (mainSeqsOf mainSize p1Size p2Size).findSome? fun main =>
    if p1Size = 0 ∧ main.contains Instr.proc1 then none
    else if p2Size = 0 ∧ main.contains Instr.proc2 then none
    else (p1SeqsOf p1Size p2Size).findSome? fun p1 =>
      (p2SeqsOf p1Size p2Size).findSome? fun p2 =>
        let prog : Program := { main := main, proc1 := p1, proc2 := p2 }
        if ¬ isValidProgram prog then none
        else if (execute lvl maxExec prog).1 then some prog else none

/-- `ProcedureSolver._search_size`. -/
def psSearchSize (lvl : Level) (maxExec total : Nat) : Option Program :=
  (buildDistributions total).findSome? fun d =>
    psSearchDistribution lvl maxExec d.1 d.2.1 d.2.2

/-- `ProcedureSolver.solve`: iterative deepening on total size. -/
def procedureSolve (lvl : Level) (maxExec maxSize : Nat) : Option Program :=
  (List.range' 1 maxSize).findSome? fun size => psSearchSize lvl maxExec size

/-- `OptimizedProcedureSolver._execute_with_state_check`: the executor loop
with in-execution state recording; aborts (unsolved) as soon as the state
hash after a consumed instruction repeats one already seen in this same
execution. -/
def execCheckGo (lvl : Level) (p : Program) :
    Nat → List Instr → EngineState → List StateHash → Bool × Option StateHash
  | _, [], s, _ => (isSolved lvl s, some (stateHash lvl s))
  | 0, _ :: _, s, _ => (isSolved lvl s, some (stateHash lvl s))
  | fuel + 1, i :: rest, s, visited =>
      let c := consumeInstr lvl p i rest s
      if isSolved lvl c.2 then (true, some (stateHash lvl c.2))
      else if stateHash lvl c.2 ∈ visited then (false, none)
      else execCheckGo lvl p fuel c.1 c.2 (stateHash lvl c.2 :: visited)

/-- `OptimizedProcedureSolver._execute_with_state_check` entry point
(`fuel = max_exec_steps`, the step counter made structural as in
`execGo`). -/
def executeWithStateCheck (lvl : Level) (maxExec : Nat) (p : Program) :
    Bool × Option StateHash :=
  execCheckGo lvl p maxExec p.main lvl.init []

/-- `OptimizedProcedureSolver._search_distribution_optimized`. -/
def optSearchDistribution (lvl : Level) (maxExec : Nat)
    (mainSize p1Size p2Size : Nat) : Option Program :=
  (mainSeqsOf mainSize p1Size p2Size).findSome? fun main =>
    if p1Size = 0 ∧ main.contains Instr.proc1 then none
    else if p2Size = 0 ∧ main.contains Instr.proc2 then none
    else (p1SeqsOf p1Size p2Size).findSome? fun p1 =>
      (p2SeqsOf p1Size p2Size).findSome? fun p2 =>
        let prog : Program := { main := main, proc1 := p1, proc2 := p2 }
        if ¬ isValidProgram prog then none
        else if (executeWithStateCheck lvl maxExec prog).1 then some prog else none

/-- `OptimizedProcedureSolver._search_size_optimized`: distributions sorted
by `(procedure instructions, main size)`. -/
def optSearchSize (lvl : Level) (maxExec total : Nat) : Option Program :=
  (sortedDistributions total).findSome? fun d =>
    optSearchDistribution lvl maxExec d.1 d.2.1 d.2.2

/-- `OptimizedProcedureSolver.solve` (the `_state_cache` field it clears is
never read anywhere, so it has no observable effect). -/
def optimizedSolve (lvl : Level) (maxExec maxSize : Nat) : Option Program :=
  (List.range' 1 maxSize).findSome? fun size => optSearchSize lvl maxExec size

/-! ### Resumable procedure solver (`solvers/resumable_procedure_solver.py`)

`ResumableProcedureSolver.solve` is embedded with two effects made
explicit:

* the wall clock — `time.time()` returns `clock k` at its `k`-th call, the
  call counter (`clk`) threaded through the run state; the solver observes
  times only through ordering, addition and subtraction, so they are
  embedded as exact integer values (any finite set of float readings
  embeds order- and difference-faithfully);
* the checkpoint file for this level — an explicit `FSFile` value threaded
  through `solve`: `absent`; `unparseable` for a file whose read raises
  `json.JSONDecodeError` (caught by `load`); `malformed` for a file whose
  JSON parses but does not match the dataclass fields, so that `cls(**d)`
  raises an uncaught `TypeError` (`solveE` models that fatal path);
  or `valid c`.

In addition the loops return the list of candidate programs passed to
`executor.execute` (in order) as a ghost observation; `programs_tested`
increments exactly when this list is extended, as in the source.  Index
loops (`for mi in range(start_main, len(main_seqs))` …) are embedded
structurally as recursion over the dropped suffix of the sequence list,
carrying the running index. -/

/-- The checkpoint contents, with the solver's own field types (sizes and
indices are the solver's non-negative loop counters). -/
structure Ckpt where
  level : Int
  curSize : Nat
  curMain : Nat
  curP1 : Nat
  curP2 : Nat
  tested : Nat
  timeSpent : Int
  mainIdx : Nat
  p1Idx : Nat
  p2Idx : Nat
deriving DecidableEq, Repr

/-- The checkpoint file for one level, by what `SolverCheckpoint.load`
does with it: missing; unreadable as JSON (`json.JSONDecodeError`);
readable as JSON but not matching the dataclass fields (so `cls(**d)`
raises `TypeError`); or loading to the checkpoint `c`. -/
inductive FSFile where
  | absent
  | unparseable
  | malformed
  | valid (c : Ckpt)
deriving DecidableEq, Repr

/-- `SolverCheckpoint.load`: `None` for a missing file and for the caught
`json.JSONDecodeError` of an unparseable one; `some c` for a loadable
file.  The `except` clause also names `KeyError`, but `cls(**d)` raises
`TypeError`, not `KeyError`, on a wrong-shape document, so that branch is
dead code and the `TypeError` escapes: `Except.error ()` stands for the
uncaught exception. -/
def loadCheckpointE : FSFile → Except Unit (Option Ckpt)
  | FSFile.absent => Except.ok none
  | FSFile.unparseable => Except.ok none
  | FSFile.malformed => Except.error ()
  | FSFile.valid c => Except.ok (some c)

/-- The non-raising fragment of `SolverCheckpoint.load`: its value on
every file on which it returns (`solve` below is the source's behaviour
on exactly those inputs; `solveE` accounts for the raising one). -/
def loadCheckpointFile : FSFile → Option Ckpt
  | FSFile.valid c => some c
  | _ => none

/-- The solver's per-run context: the level (with its index), the executor
budget, the timeout, and the wall clock. -/
structure RunCtx where
  lvl : Level
  levelIndex : Int
  maxExecSteps : Nat
  timeout : Int
  clock : Nat → Int

/-- The solver's mutable search state: `_current_*`, `_*_index`,
`programs_tested`, `self.time_spent`, and the clock-call counter. -/
structure RunState where
  curSize : Nat
  curMain : Nat
  curP1 : Nat
  curP2 : Nat
  mainIdx : Nat
  p1Idx : Nat
  p2Idx : Nat
  tested : Nat
  timeSpent : Int
  clk : Nat
deriving DecidableEq, Repr

/-- The body of the innermost loop after the periodic timeout check:
validity check, `programs_tested += 1`, execute.  Returns the solving
program (if any), the updated state, and the tested-candidates ghost
list. -/
def testCandidate (ctx : RunCtx) (main p1 p2 : List Instr) (st : RunState) :
    Option Program × RunState × List Program :=
  let prog : Program := { main := main, proc1 := p1, proc2 := p2 }
  if ¬ isValidProgram prog then (none, st, [])
  else
    let st1 := { st with tested := st.tested + 1 }
    if (execute ctx.lvl ctx.maxExecSteps prog).1 then (some prog, st1, [prog])
    else (none, st1, [prog])

/-- The `for p2i in range(p2_start, len(p2_seqs))` loop of
`_search_distribution_with_timeout`: remaining sequence suffix plus the
running index.  Returns (result, timed-out, state, tested ghost list). -/
def loopP2 (ctx : RunCtx) (startTime : Int) (main p1 : List Instr) :
    List (List Instr) → Nat → RunState → Option Program × Bool × RunState × List Program
  | [], _, st => (none, false, st, [])
  | p2 :: restSeqs, p2i, st =>
      let st1 := { st with p2Idx := p2i }
      if st1.tested % 10000 = 0 then
        let t := ctx.clock st1.clk
        let st2 := { st1 with clk := st1.clk + 1 }
        if t - startTime > ctx.timeout then (none, true, st2, [])
        else
          match testCandidate ctx main p1 p2 st2 with
          | (some prog, st3, d) => (some prog, false, st3, d)
          | (none, st3, d) =>
              match loopP2 ctx startTime main p1 restSeqs (p2i + 1) st3 with
              | (res, tmo, st4, d') => (res, tmo, st4, d ++ d')
      else
        match testCandidate ctx main p1 p2 st1 with
        | (some prog, st3, d) => (some prog, false, st3, d)
        | (none, st3, d) =>
            match loopP2 ctx startTime main p1 restSeqs (p2i + 1) st3 with
            | (res, tmo, st4, d') => (res, tmo, st4, d ++ d')

/-- The `for pi in range(p1_start, len(p1_seqs))` loop; the first iteration
starts the inner loop at `p2start`, later iterations at 0. -/
def loopP1 (ctx : RunCtx) (startTime : Int) (main : List Instr)
    (p2Seqs : List (List Instr)) :
    List (List Instr) → Nat → Nat → RunState → Option Program × Bool × RunState × List Program
  | [], _, _, st => (none, false, st, [])
  | p1 :: restSeqs, p1i, p2start, st =>
      let st1 := { st with p1Idx := p1i }
      match loopP2 ctx startTime main p1 (p2Seqs.drop p2start) p2start st1 with
      | (some prog, _, st2, d) => (some prog, false, st2, d)
      | (none, true, st2, d) => (none, true, st2, d)
      | (none, false, st2, d) =>
          match loopP1 ctx startTime main p2Seqs restSeqs (p1i + 1) 0 st2 with
          | (res, tmo, st3, d') => (res, tmo, st3, d ++ d')

/-- The `for mi in range(start_main, len(main_seqs))` loop, including the
(source-mirrored) skip of MAINs that call procedures absent from the
distribution; the first iteration starts the inner loops at
`(p1start, p2start)`, later iterations at 0. -/
def loopMain (ctx : RunCtx) (startTime : Int) (p1Zero p2Zero : Bool)
    (p1Seqs p2Seqs : List (List Instr)) :
    List (List Instr) → Nat → Nat → Nat → RunState →
      Option Program × Bool × RunState × List Program
  | [], _, _, _, st => (none, false, st, [])
  | main :: restSeqs, mi, p1start, p2start, st =>
      let st1 := { st with mainIdx := mi }
      if (p1Zero && main.contains Instr.proc1) || (p2Zero && main.contains Instr.proc2) then
        loopMain ctx startTime p1Zero p2Zero p1Seqs p2Seqs restSeqs (mi + 1) 0 0 st1
      else
        match loopP1 ctx startTime main p2Seqs (p1Seqs.drop p1start) p1start p2start st1 with
        | (some prog, _, st2, d) => (some prog, false, st2, d)
        | (none, true, st2, d) => (none, true, st2, d)
        | (none, false, st2, d) =>
            match loopMain ctx startTime p1Zero p2Zero p1Seqs p2Seqs restSeqs (mi + 1) 0 0 st2 with
            | (res, tmo, st3, d') => (res, tmo, st3, d ++ d')

/-- `_search_distribution_with_timeout`: build the three sequence lists and
run the nested loops, starting at the stored indices when resuming. -/
def searchDistribution (ctx : RunCtx) (startTime : Int)
    (mainSize p1Size p2Size : Nat) (skipIndices : Bool) (st : RunState) :
    Option Program × Bool × RunState × List Program :=
  let mainSeqs := mainSeqsOf mainSize p1Size p2Size
  let p1Seqs := p1SeqsOf p1Size p2Size
  let p2Seqs := p2SeqsOf p1Size p2Size
  let startMain := if skipIndices then st.mainIdx else 0
  let startP1 := if skipIndices then st.p1Idx else 0
  let startP2 := if skipIndices then st.p2Idx else 0
  loopMain ctx startTime (p1Size == 0) (p2Size == 0) p1Seqs p2Seqs
    (mainSeqs.drop startMain) startMain startP1 startP2 st

/-- The `for i in range(start_idx, len(distributions))` loop of
`_search_size_with_timeout`: per-distribution timeout check, inner search,
and index reset between distributions; `skipIdx` holds for the first
iteration only. -/
def loopDist (ctx : RunCtx) (startTime : Int) :
    List (Nat × Nat × Nat) → Bool → RunState → Option Program × Bool × RunState × List Program
  | [], _, st => (none, false, st, [])
  | d :: restDists, skipIdx, st =>
      let st1 := { st with curMain := d.1, curP1 := d.2.1, curP2 := d.2.2 }
      let t := ctx.clock st1.clk
      let st2 := { st1 with clk := st1.clk + 1 }
      if t - startTime > ctx.timeout then (none, true, st2, [])
      else
        match searchDistribution ctx startTime d.1 d.2.1 d.2.2 skipIdx st2 with
        | (some prog, _, st3, dl) => (some prog, false, st3, dl)
        | (none, true, st3, dl) => (none, true, st3, dl)
        | (none, false, st3, dl) =>
            match loopDist ctx startTime restDists false { st3 with mainIdx := 0, p1Idx := 0, p2Idx := 0 } with
            | (res, tmo, st4, dl') => (res, tmo, st4, dl ++ dl')

/-- The `start_idx` relocation of `_search_size_with_timeout`: position of
the resumed distribution in the sorted list, `0` when it is not found. -/
def resumeIdx (dists : List (Nat × Nat × Nat)) (triple : Nat × Nat × Nat) : Nat :=
  match dists.findIdx? (fun d => d = triple) with
  | some i => i
  | none => 0

/-- `_search_size_with_timeout`: sorted distributions, locate the resumed
distribution, and run the distribution loop. -/
def searchSize (ctx : RunCtx) (startTime : Int) (total : Nat)
    (skipToDistribution : Bool) (st : RunState) :
    Option Program × Bool × RunState × List Program :=
  let dists := sortedDistributions total
  let startIdx :=
    if skipToDistribution then resumeIdx dists (st.curMain, st.curP1, st.curP2)
    else 0
  loopDist ctx startTime (dists.drop startIdx) skipToDistribution st

/-- The `for size in range(self._current_size, max_size + 1)` loop of
`solve` (structural on the number of remaining sizes), with the index and
size-distribution reset between sizes. -/
def loopSize (ctx : RunCtx) (startTime : Int) :
    Nat → Nat → Bool → RunState → Option Program × Bool × RunState × List Program
  | 0, _, _, st => (none, false, st, [])
  | count + 1, size, skip, st =>
      let st1 := { st with curSize := size }
      match searchSize ctx startTime size skip st1 with
      | (some prog, _, st2, d) => (some prog, false, st2, d)
      | (none, true, st2, d) => (none, true, st2, d)
      | (none, false, st2, d) =>
          match loopSize ctx startTime count (size + 1) false { st2 with mainIdx := 0, p1Idx := 0, p2Idx := 0, curMain := 1, curP1 := 0, curP2 := 0 } with
          | (res, tmo, st3, d') => (res, tmo, st3, d ++ d')

/-- `_save_checkpoint`: the record written on timeout. -/
def mkCkpt (ctx : RunCtx) (st : RunState) (timeSpent : Int) : Ckpt :=
  { level := ctx.levelIndex, curSize := st.curSize, curMain := st.curMain,
    curP1 := st.curP1, curP2 := st.curP2, tested := st.tested,
    timeSpent := timeSpent, mainIdx := st.mainIdx, p1Idx := st.p1Idx,
    p2Idx := st.p2Idx }

/-- The run-state fields that the candidate loops never write (the
distribution and size loops write `cur*` at entry, so they get their own
frame statements). -/
def framePreserved (st stA : RunState) : Prop :=
  stA.curSize = st.curSize ∧ stA.curMain = st.curMain ∧ stA.curP1 = st.curP1 ∧
  stA.curP2 = st.curP2 ∧ stA.timeSpent = st.timeSpent

/-- The result of `ResumableProcedureSolver.solve`: the solution, the
stats dict, the checkpoint file after the run, and the ghost list of
candidates passed to the executor. -/
structure SolveResult where
  solution : Option Program
  tested : Nat
  timeSeconds : Int
  timedOut : Bool
  resumed : Bool
  sizeSearched : Nat
  fs : FSFile
  log : List Program
deriving Repr

/-- `ResumableProcedureSolver.solve` on the inputs where it returns (a
resuming call on a `malformed` file instead dies of the load's uncaught
`TypeError`; `solveE` below makes that path explicit). -/
def solve (ctx : RunCtx) (maxSize : Nat) (timeoutResume : Bool) (fs : FSFile) : SolveResult :=
  let startTime := ctx.clock 0
  let ckpt := if timeoutResume then loadCheckpointFile fs else none
  let init : Bool × RunState :=
    match ckpt with
    | some c =>
        if c.level = ctx.levelIndex then
          (true, { curSize := c.curSize, curMain := c.curMain, curP1 := c.curP1,
                   curP2 := c.curP2, mainIdx := c.mainIdx, p1Idx := c.p1Idx,
                   p2Idx := c.p2Idx, tested := c.tested, timeSpent := c.timeSpent,
                   clk := 1 })
        else
          (false, { curSize := 1, curMain := 1, curP1 := 0, curP2 := 0, mainIdx := 0,
                    p1Idx := 0, p2Idx := 0, tested := 0, timeSpent := 0, clk := 1 })
    | none =>
        (false, { curSize := 1, curMain := 1, curP1 := 0, curP2 := 0, mainIdx := 0,
                  p1Idx := 0, p2Idx := 0, tested := 0, timeSpent := 0, clk := 1 })
  match loopSize ctx startTime (maxSize + 1 - init.2.curSize) init.2.curSize init.1 init.2 with
  | (solution, timedOut, stF, log) =>
      let tEnd := ctx.clock stF.clk
      let timeSpent := stF.timeSpent + (tEnd - startTime)
      let fs' : FSFile :=
        if timedOut then FSFile.valid (mkCkpt ctx stF timeSpent)
        else if solution.isSome then FSFile.absent
        else fs
      { solution := solution, tested := stF.tested, timeSeconds := timeSpent,
        timedOut := timedOut, resumed := init.1, sizeSearched := stF.curSize,
        fs := fs', log := log }

/-- `ResumableProcedureSolver.solve` with the load's uncaught error made
explicit: a resuming call whose checkpoint file parses as JSON but does
not match the dataclass propagates the `TypeError` out of `solve`
(`Except.error ()`); on every other input the call returns `solve`'s
value. -/
def solveE (ctx : RunCtx) (maxSize : Nat) (timeoutResume : Bool) (fs : FSFile) :
    Except Unit SolveResult :=
  match (if timeoutResume then loadCheckpointE fs else Except.ok none) with
  | Except.error e => Except.error e
  | Except.ok _ => Except.ok (solve ctx maxSize timeoutResume fs)

/-! ### Specification of the resumable enumeration

The candidate stream each loop level walks, as pure functions of the loop
arguments (mirroring the loop structure: a start offset applies to the
first iteration only), and the scan that tests a candidate list in order:
skip invalid candidates, stop at the first solving one, recording the
tested candidates. -/

/-- Test a candidate list in order: invalid candidates are skipped, the
scan stops at the first whose execution solves the level; returns the
solving candidate (if any) and the list of executed candidates. -/
def validScan (lvl : Level) (maxExec : Nat) : List Program → Option Program × List Program
  | [] => (none, [])
  | c :: rest =>
      if isValidProgram c then
        if (execute lvl maxExec c).1 then (some c, [c])
        else ((validScan lvl maxExec rest).1, c :: (validScan lvl maxExec rest).2)
      else validScan lvl maxExec rest

/-- The candidates of the innermost loop: fixed MAIN and PROC1, one
candidate per remaining PROC2 sequence. -/
def candsOfP2 (m p1 : List Instr) (p2s : List (List Instr)) : List Program :=
  p2s.map fun p2 => { main := m, proc1 := p1, proc2 := p2 }

/-- The candidates of the PROC1 loop from a start position: the PROC2
start offset applies to the first PROC1 sequence only. -/
def candsP1From (m : List Instr) (p2full : List (List Instr)) :
    List (List Instr) → Nat → List Program
  | [], _ => []
  | p1 :: rest, p2start =>
      candsOfP2 m p1 (p2full.drop p2start) ++ candsP1From m p2full rest 0

/-- The candidates of the MAIN loop from a start position, including the
source's skip of MAINs calling absent procedures. -/
def candsMainFrom (z1 z2 : Bool) (p1full p2full : List (List Instr)) :
    List (List Instr) → Nat → Nat → List Program
  | [], _, _ => []
  | mn :: rest, p1start, p2start =>
      (if (z1 && mn.contains Instr.proc1) || (z2 && mn.contains Instr.proc2) then []
       else candsP1From mn p2full (p1full.drop p1start) p2start) ++
      candsMainFrom z1 z2 p1full p2full rest 0 0

/-- The candidates of one size distribution from a triple of start
indices. -/
def candsOfDistFrom (d : Nat × Nat × Nat) (mi pi p2i : Nat) : List Program :=
  candsMainFrom (d.2.1 == 0) (d.2.2 == 0) (p1SeqsOf d.2.1 d.2.2) (p2SeqsOf d.2.1 d.2.2)
    ((mainSeqsOf d.1 d.2.1 d.2.2).drop mi) pi p2i

/-- The candidates of a distribution-list suffix; the index triple applies
to the first distribution only. -/
def candsDistFrom : List (Nat × Nat × Nat) → Nat × Nat × Nat → List Program
  | [], _ => []
  | d :: rest, idx =>
      candsOfDistFrom d idx.1 idx.2.1 idx.2.2 ++ candsDistFrom rest (0, 0, 0)

/-- The candidates of one size: all of its distributions from the start,
or — when resuming — from the checkpointed distribution (located with the
same `find`-the-distribution logic as the source) at the checkpointed
index triple. -/
def candsOfSize (size : Nat) :
    Option ((Nat × Nat × Nat) × (Nat × Nat × Nat)) → List Program
  | none => candsDistFrom (sortedDistributions size) (0, 0, 0)
  | some (dtriple, idx) =>
      candsDistFrom ((sortedDistributions size).drop
        (resumeIdx (sortedDistributions size) dtriple)) idx

/-- The candidates of the size loop from a size, over `count` sizes; a
resume position (the checkpointed distribution triple and index triple)
applies to the first size only. -/
def candsSizeFrom : Nat → Nat → Option ((Nat × Nat × Nat) × (Nat × Nat × Nat)) → List Program
  | 0, _, _ => []
  | count + 1, size, resume =>
      candsOfSize size resume ++ candsSizeFrom count (size + 1) none

/-- The 4×1 corridor: a basic start cell and three lights, equal heights,
bot facing along the corridor. -/
def lvlC : Level :=
  { width := 4
    height := 1
    tiles := fun x _ =>
      if x = 0 then { t := TileKind.basic, h := 0 } else { t := TileKind.light, h := 0 }
    startX := 0
    startY := 0
    startDir := 0 }

/-- A 2×1 corridor: a basic start cell and one light, equal heights,
bot facing the light. -/
def lvlA : Level :=
  { width := 2
    height := 1
    tiles := fun x _ =>
      if x = 1 then { t := TileKind.light, h := 0 } else { t := TileKind.basic, h := 0 }
    startX := 0
    startY := 0
    startDir := 0 }

/-- A 1×2 level with an elevator under the bot and a light above it
(unreachable on foot); the start cell is one step below the light. -/
def lvlB : Level :=
  { width := 1
    height := 2
    tiles := fun _ y =>
      if y = 1 then { t := TileKind.light, h := 3 } else { t := TileKind.elevator, h := 1 }
    startX := 0
    startY := 0
    startDir := 1 }

/-- A directly self-recursive program: MAIN calls PROC1, PROC1 calls itself. -/
def progLoop : Program :=
  { main := [Instr.proc1], proc1 := [Instr.proc1], proc2 := [] }

/-- A sample checkpoint record for level 5. -/
def ck0 : Ckpt :=
  { level := 5, curSize := 3, curMain := 1, curP1 := 1, curP2 := 1,
    tested := 42, timeSpent := 7, mainIdx := 2, p1Idx := 0, p2Idx := 1 }

/-- A run context for `lvlB` (level index 5) whose clock never advances, so
the timeout never fires. -/
def ctxB : RunCtx :=
  { lvl := lvlB, levelIndex := 5, maxExecSteps := 6, timeout := 50,
    clock := fun _ => 0 }

/-- A run context for `lvlA` whose clock jumps past the timeout after the
third reading: the run finishes size 1 and times out at the first size-2
distribution boundary. -/
def ctxW1 : RunCtx :=
  { lvl := lvlA, levelIndex := 0, maxExecSteps := 20, timeout := 10,
    clock := fun k => if k ≤ 2 then 0 else 100 }

/-- A run context for `lvlA` whose clock never advances. -/
def ctxW2 : RunCtx :=
  { lvl := lvlA, levelIndex := 0, maxExecSteps := 20, timeout := 10,
    clock := fun _ => 0 }

/-! ### The flat-space solvers (`solvers/bfs_solver.py` lines 34-72,
`solvers/ids_solver.py` lines 31-92) -/

/-- The inner `for instr in BASIC_INSTRUCTIONS` loop of `BFSSolver.solve`:
step each instruction from the popped state, return on a solved successor,
otherwise collect the unvisited successors (in instruction order) and the
grown visited set. -/
def bfsTry (lvl : Level) (instrs : List Instr) (s : EngineState) :
    List Instr → List StateHash →
      Option (List Instr) × List (List Instr × EngineState) × List StateHash
  | [], visited => (none, [], visited)
  | i :: rest, visited =>
      let s2 := (stepFn lvl i s).2
      if isSolved lvl s2 then (some (instrs ++ [i]), [], visited)
      else
        let h := stateHash lvl s2
        if h ∈ visited then bfsTry lvl instrs s rest visited
        else
          match bfsTry lvl instrs s rest (h :: visited) with
          | (res, adds, visited2) => (res, (instrs ++ [i], s2) :: adds, visited2)

/-- The `while queue` loop of `BFSSolver.solve` (FIFO queue, popped
entries whose length reached the bound are skipped).  The loop pops one
entry per iteration and every enqueued entry carries a distinct basic
sequence of length at most the bound, so `5 ^ (bound + 1)` iterations are
never exhausted; the fuel only makes the recursion structural. -/
def bfsGo (lvl : Level) (maxInstr : Nat) :
    Nat → List (List Instr × EngineState) → List StateHash → Option (List Instr)
  | 0, _, _ => none
  | _ + 1, [], _ => none
  | fuel + 1, (instrs, s) :: queue, visited =>
      if maxInstr ≤ instrs.length then bfsGo lvl maxInstr fuel queue visited
      else
        match bfsTry lvl instrs s BASIC_INSTRUCTIONS visited with
        | (some p, _, _) => some p
        | (none, adds, visited2) => bfsGo lvl maxInstr fuel (queue ++ adds) visited2

/-- `BFSSolver.solve`. -/
def bfsSolve (lvl : Level) (maxInstr : Nat) : Option (List Instr) :=
  bfsGo lvl maxInstr (5 ^ (maxInstr + 1)) [([], Level.init lvl)]
    [stateHash lvl (Level.init lvl)]

/-- `IDSSolver._dfs`: depth-limited DFS; the shared visited set holds, at
any call, exactly the hashes of the states on the current path (each
frame adds its hash before the loop and discards it before returning
`None`), so it is passed functionally. -/
def dfs (lvl : Level) : Nat → List Instr → EngineState → List StateHash → Option (List Instr)
  | 0, path, s, _ => if isSolved lvl s then some path else none
  | r + 1, path, s, visited =>
      if isSolved lvl s then some path
      else if stateHash lvl s ∈ visited then none
      else BASIC_INSTRUCTIONS.findSome? fun i =>
        dfs lvl r (path ++ [i]) (stepFn lvl i s).2 (stateHash lvl s :: visited)

/-- The `for depth in range(1, max_depth + 1)` loop of `IDSSolver.solve`. -/
def idsLoop (lvl : Level) : Nat → Nat → Option (List Instr)
  | 0, _ => none
  | count + 1, depth =>
      match dfs lvl depth [] (Level.init lvl) [] with
      | some p => some p
      | none => idsLoop lvl count (depth + 1)

/-- `IDSSolver.solve`. -/
def idsSolve (lvl : Level) (maxDepth : Nat) : Option (List Instr) :=
  idsLoop lvl maxDepth 1

/-- A 1×1 level with no light tiles: its initial state is already
solved. -/
def lvlD : Level :=
  { width := 1
    height := 1
    tiles := fun _ _ => { t := TileKind.basic, h := 0 }
    startX := 0
    startY := 0
    startDir := 0 }

/-! ### Checkpoint record (`solvers/resumable_procedure_solver.py` lines 20-56)

The checkpoint is persisted with `json.dump(self.to_dict(), f)` and read
back with `cls(**json.load(f))`.  Per spec §6 the on-disk encoding is free
to the implementer; only the key-value document (field name ↦ value) is
load-bearing, so serialization is embedded at that level.  Python ints are
embedded as `Int` (arbitrary precision in both Python and its JSON
encoding); the `time_spent` float is embedded as the exact rational value
it denotes (every finite IEEE double is a rational, and `json.dump`'s
`repr`-based float encoding round-trips it). -/

/-- A JSON scalar as Python's `json` module distinguishes them:
an int stays an int, a float stays a float. -/
inductive JsonVal where
  | jint (i : Int)
  | jnum (q : Rat)
deriving DecidableEq, Repr

/-- `SolverCheckpoint`. -/
structure SolverCheckpoint where
  level : Int
  current_size : Int
  current_main_size : Int
  current_p1_size : Int
  current_p2_size : Int
  programs_tested : Int
  time_spent : Rat
  main_index : Int
  p1_index : Int
  p2_index : Int
deriving DecidableEq, Repr

/-- `SolverCheckpoint.to_dict` (`dataclasses.asdict` keeps field order). -/
def SolverCheckpoint.toDict (c : SolverCheckpoint) : List (String × JsonVal) :=
  [("level", JsonVal.jint c.level),
   ("current_size", JsonVal.jint c.current_size),
   ("current_main_size", JsonVal.jint c.current_main_size),
   ("current_p1_size", JsonVal.jint c.current_p1_size),
   ("current_p2_size", JsonVal.jint c.current_p2_size),
   ("programs_tested", JsonVal.jint c.programs_tested),
   ("time_spent", JsonVal.jnum c.time_spent),
   ("main_index", JsonVal.jint c.main_index),
   ("p1_index", JsonVal.jint c.p1_index),
   ("p2_index", JsonVal.jint c.p2_index)]

/-- Read an int field of the loaded document (no implicit conversions:
a Python dataclass constructor stores the value as loaded). -/
def lookupInt (d : List (String × JsonVal)) (k : String) : Option Int :=
  match d.lookup k with
  | some (JsonVal.jint i) => some i
  | _ => none

/-- Read a float field of the loaded document. -/
def lookupNum (d : List (String × JsonVal)) (k : String) : Option Rat :=
  match d.lookup k with
  | some (JsonVal.jnum q) => some q
  | _ => none

/-- `SolverCheckpoint.from_dict`: `cls(**d)` needs every required field
present (C8 quantifies over checkpoints, whose `to_dict` documents always
are; on other documents `cls(**d)` raises `TypeError`, which `load` does
not catch — see `loadCheckpointE`). -/
def SolverCheckpoint.fromDict (d : List (String × JsonVal)) : Option SolverCheckpoint := do
  let level ← lookupInt d "level"
  let current_size ← lookupInt d "current_size"
  let current_main_size ← lookupInt d "current_main_size"
  let current_p1_size ← lookupInt d "current_p1_size"
  let current_p2_size ← lookupInt d "current_p2_size"
  let programs_tested ← lookupInt d "programs_tested"
  let time_spent ← lookupNum d "time_spent"
  let main_index ← lookupInt d "main_index"
  let p1_index ← lookupInt d "p1_index"
  let p2_index ← lookupInt d "p2_index"
  pure ⟨level, current_size, current_main_size, current_p1_size, current_p2_size,
        programs_tested, time_spent, main_index, p1_index, p2_index⟩

end LightBot

namespace LightBot

/-! ## C3/C4/C5 — engine step semantics -/

/-- C3: `step(WALK)` moves the bot one cell in the facing direction and
returns true iff the target cell is in bounds and its height equals the
current cell's height; otherwise it returns false and leaves the entire
engine state unchanged. -/
theorem walk_step_correct (lvl : Level) (s : EngineState) :
    ((stepFn lvl Instr.walk s).1 = true ↔
      isValidPos lvl (targetPos s).1 (targetPos s).2 = true ∧
        currentHeight s = tileHeight lvl s (targetPos s).1 (targetPos s).2) ∧
    ((stepFn lvl Instr.walk s).1 = true →
      (stepFn lvl Instr.walk s).2 =
        { s with botX := (targetPos s).1, botY := (targetPos s).2 }) ∧
    ((stepFn lvl Instr.walk s).1 = false → (stepFn lvl Instr.walk s).2 = s) := by
  simp only [stepFn, walkStep]
  by_cases hv : isValidPos lvl (targetPos s).1 (targetPos s).2
  · by_cases hh : currentHeight s = tileHeight lvl s (targetPos s).1 (targetPos s).2
    · simp [hv, hh]
    · simp [hv, hh]
  · simp [hv]

theorem walk_step_correct_witness :
    (stepFn lvlA Instr.walk lvlA.init).1 = true ∧
    (stepFn lvlA Instr.walk lvlA.init).2 =
      { lvlA.init with botX := (targetPos lvlA.init).1, botY := (targetPos lvlA.init).2 } :=
  ⟨by decide, (walk_step_correct lvlA lvlA.init).2.1 (by decide)⟩

/-- C4: `step(JUMP)` moves the bot one cell in the facing direction and
returns true iff the target cell is in bounds and either target height −
current height = 1 or current height > target height; otherwise it returns
false and leaves the entire engine state unchanged. -/
theorem jump_step_correct (lvl : Level) (s : EngineState) :
    ((stepFn lvl Instr.jump s).1 = true ↔
      isValidPos lvl (targetPos s).1 (targetPos s).2 = true ∧
        (tileHeight lvl s (targetPos s).1 (targetPos s).2 - currentHeight s = 1 ∨
          currentHeight s > tileHeight lvl s (targetPos s).1 (targetPos s).2)) ∧
    ((stepFn lvl Instr.jump s).1 = true →
      (stepFn lvl Instr.jump s).2 =
        { s with botX := (targetPos s).1, botY := (targetPos s).2 }) ∧
    ((stepFn lvl Instr.jump s).1 = false → (stepFn lvl Instr.jump s).2 = s) := by
  simp only [stepFn, jumpStep]
  by_cases hv : isValidPos lvl (targetPos s).1 (targetPos s).2
  · by_cases hh : tileHeight lvl s (targetPos s).1 (targetPos s).2 - currentHeight s = 1 ∨
        currentHeight s > tileHeight lvl s (targetPos s).1 (targetPos s).2
    · simp [hv, hh]
    · simp [hv, hh]
  · simp [hv]

theorem jump_step_correct_witness :
    (stepFn lvlB Instr.jump lvlB.init).1 = false ∧
    (stepFn lvlB Instr.jump lvlB.init).2 = lvlB.init :=
  ⟨by decide, (jump_step_correct lvlB lvlB.init).2.2 (by decide)⟩

/-- C5: `step(LIGHT)` toggles the lit set on a light tile (returning true),
raises the height by `(h+2) mod 6` on an elevator tile (returning true),
and otherwise returns false leaving the state unchanged.  On a light tile
the bot's cell membership in the (duplicate-free) lit set is inverted. -/
theorem light_step_correct (lvl : Level) (s : EngineState) :
    (tileType lvl s.botX s.botY = some TileKind.light →
      stepFn lvl Instr.light s =
        (true, { s with lightsOn := toggleLight s.lightsOn (s.botX, s.botY) }) ∧
      (s.lightsOn.Nodup →
        (((s.botX, s.botY) ∈ (stepFn lvl Instr.light s).2.lightsOn) ↔
          ¬ ((s.botX, s.botY) ∈ s.lightsOn)))) ∧
    (tileType lvl s.botX s.botY = some TileKind.elevator →
      stepFn lvl Instr.light s =
        (true, { s with mapH := (fun x y => if x = s.botX ∧ y = s.botY then (s.mapH s.botX s.botY + 2) % 6 else s.mapH x y) })) ∧
    (tileType lvl s.botX s.botY ≠ some TileKind.light →
      tileType lvl s.botX s.botY ≠ some TileKind.elevator →
      stepFn lvl Instr.light s = (false, s)) := by
  refine ⟨fun hl => ⟨?_, fun hnd => ?_⟩, fun he => ?_, fun h1 h2 => ?_⟩
  · simp [stepFn, lightStep, hl]
  · simp only [stepFn, lightStep, hl]
    simp only [toggleLight]
    by_cases hm : (s.botX, s.botY) ∈ s.lightsOn
    · simp [hm, List.Nodup.mem_erase_iff hnd]
    · simp [hm, List.mem_orderedInsert]
  · simp [stepFn, lightStep, he]
  · simp only [stepFn, lightStep]

theorem light_step_correct_witness :
    (stepFn lvlB Instr.light lvlB.init).2.mapH 0 0 = 3 ∧
    (stepFn lvlB Instr.light lvlB.init).1 = true := by
  have h := (light_step_correct lvlB lvlB.init).2.1 (by decide)
  rw [h]
  exact ⟨by decide, by decide⟩

/-! ## C10 — elevator height parity invariant -/

/-- One engine step never changes the parity of any tile height: the only
height mutation is the elevator `(h+2) % 6` update. -/
theorem step_preserves_height_parity (lvl : Level) (i : Instr) (s : EngineState)
    (x y : Int) : ((stepFn lvl i s).2).mapH x y % 2 = s.mapH x y % 2 := by
  cases i with
  | walk =>
      simp only [stepFn, walkStep]
      split
      · rfl
      · split <;> rfl
  | jump =>
      simp only [stepFn, jumpStep]
      split
      · rfl
      · split <;> rfl
  | light =>
      simp only [stepFn, lightStep]
      rcases h : tileType lvl s.botX s.botY with _ | k
      · rfl
      · cases k
        · rfl
        · rfl
        · simp only []
          by_cases hxy : x = s.botX ∧ y = s.botY
          · rw [if_pos hxy]
            rcases hxy with ⟨hx, hy⟩
            subst hx; subst hy
            omega
          · rw [if_neg hxy]
  | turnLeft => rfl
  | turnRight => rfl
  | proc1 => rfl
  | proc2 => rfl

/-- C10: along every sequence of `step` calls from the initial state, every
elevator tile's height keeps the parity of its initial height. -/
theorem elevator_height_parity (lvl : Level) (seq : List Instr) (p : Int × Int)
    (_hp : p ∈ lvl.elevatorPositions) :
    (runSteps lvl lvl.init seq).mapH p.1 p.2 % 2 = (lvl.init).mapH p.1 p.2 % 2 := by
  suffices h : ∀ s : EngineState, (runSteps lvl s seq).mapH p.1 p.2 % 2 = s.mapH p.1 p.2 % 2 from
    h lvl.init
  induction seq with
  | nil => intro s; rfl
  | cons i rest ih =>
      intro s
      have h1 := step_preserves_height_parity lvl i s p.1 p.2
      calc (runSteps lvl s (i :: rest)).mapH p.1 p.2 % 2
          = ((stepFn lvl i s).2).mapH p.1 p.2 % 2 := ih (stepFn lvl i s).2
        _ = s.mapH p.1 p.2 % 2 := h1

theorem elevator_height_parity_witness :
    ((0 : Int), (0 : Int)) ∈ lvlB.elevatorPositions ∧
    (runSteps lvlB lvlB.init [Instr.light, Instr.light]).mapH 0 0 % 2 =
      (lvlB.init).mapH 0 0 % 2 :=
  ⟨by decide, elevator_height_parity lvlB [Instr.light, Instr.light] (0, 0) (by decide)⟩

/-! ## C2 — executor semantics -/

/-- Loop invariant lemma for `execGo`, relating the loop (entered at step
count `k` in the configuration `execCfg … k`, with `fuel = max_steps − k`
budget left) to the small-step trace. -/
theorem execGo_spec (lvl : Level) (p : Program) :
    ∀ fuel k q s, execCfg lvl p k = some (q, s) →
    (execGo lvl p fuel q s k).2 ≤ k + fuel ∧
    k ≤ (execGo lvl p fuel q s k).2 ∧
    (∃ c, execCfg lvl p (execGo lvl p fuel q s k).2 = some c ∧
      (execGo lvl p fuel q s k).1 = isSolved lvl c.2) ∧
    (∀ m, k < m → m < (execGo lvl p fuel q s k).2 →
      ∀ c, execCfg lvl p m = some c → isSolved lvl c.2 = false) ∧
    ((∀ m, k ≤ m → m ≤ k + fuel → ∀ c, execCfg lvl p m = some c → isSolved lvl c.2 = false) →
      (∀ m, k ≤ m → m ≤ k + fuel → execCfg lvl p m ≠ none) →
      execGo lvl p fuel q s k = (false, k + fuel)) := by
  intro fuel
  induction fuel with
  | zero =>
      intro k q s hk
      cases q with
      | nil =>
          refine ⟨by simp [execGo], by simp [execGo], ⟨([], s), by simp [execGo, hk], by simp [execGo]⟩,
            by simp [execGo]; omega, ?_⟩
          intro hall _
          have hfalse := hall k le_rfl (by omega) ([], s) hk
          simp [execGo, hfalse]
      | cons i rest =>
          refine ⟨by simp [execGo], by simp [execGo],
            ⟨(i :: rest, s), by simp [execGo, hk], by simp [execGo]⟩,
            by simp [execGo]; omega, ?_⟩
          intro hall _
          have hfalse := hall k le_rfl (by omega) (i :: rest, s) hk
          simp [execGo, hfalse]
  | succ n ih =>
      intro k q s hk
      cases q with
      | nil =>
          refine ⟨by simp [execGo], by simp [execGo], ⟨([], s), by simp [execGo, hk], by simp [execGo]⟩,
            by simp [execGo]; omega, ?_⟩
          intro _ hexist
          exfalso
          refine hexist (k + 1) (by omega) (by omega) ?_
          simp [execCfg, hk]
      | cons i rest =>
          have hck1 : execCfg lvl p (k + 1) = some (consumeInstr lvl p i rest s) := by
            simp [execCfg, hk]
          by_cases hs : isSolved lvl (consumeInstr lvl p i rest s).2 = true
          · have hgo : execGo lvl p (n + 1) (i :: rest) s k = (true, k + 1) := by
              simp [execGo, hs]
            refine ⟨by rw [hgo]; omega, by rw [hgo]; omega,
              ⟨consumeInstr lvl p i rest s, by rw [hgo]; exact hck1, by rw [hgo]; exact hs.symm⟩,
              by rw [hgo]; omega, ?_⟩
            intro hall _
            have hfalse := hall (k + 1) (by omega) (by omega) _ hck1
            rw [hs] at hfalse
            exact absurd hfalse (by simp)
          · have hgo : execGo lvl p (n + 1) (i :: rest) s k =
                execGo lvl p n (consumeInstr lvl p i rest s).1 (consumeInstr lvl p i rest s).2
                  (k + 1) := by
              simp [execGo, hs]
            have hck1' : execCfg lvl p (k + 1) =
                some ((consumeInstr lvl p i rest s).1, (consumeInstr lvl p i rest s).2) := by
              rw [hck1]
            have hrec := ih (k + 1) (consumeInstr lvl p i rest s).1
              (consumeInstr lvl p i rest s).2 hck1'
            rw [hgo]
            refine ⟨by have := hrec.1; omega, by have := hrec.2.1; omega, hrec.2.2.1, ?_, ?_⟩
            · intro m hm1 hm2 c hc
              rcases Nat.lt_or_ge m (k + 2) with hm | hm
              · have hmeq : m = k + 1 := by omega
                subst hmeq
                rw [hck1] at hc
                cases hc
                simpa using hs
              · exact hrec.2.2.2.1 m (by omega) hm2 c hc
            · intro hall hexist
              have := hrec.2.2.2.2 (fun m h1 h2 => hall m (by omega) (by omega))
                (fun m h1 h2 => hexist m (by omega) (by omega))
              rw [this]
              congr 1
              omega

/-- C2: `ProgramExecutor.execute` (a) always terminates with a step count
at most `max_steps`, (b) returns `solved` equal to `is_solved()` at the
configuration reached after exactly that many consumed instructions (each
consumed instruction — procedure-call expansions included — being one step
of the `execCfg` trace), (c) stops at the first step at which `is_solved()`
holds, and (d) if the queue never empties and `is_solved()` never holds
within the budget, stops with `solved = false` exactly when the step
counter reaches `max_steps`.  Recursive programs only refill the queue, so
(a) covers self- and mutually-recursive programs. -/
theorem executor_correct (lvl : Level) (p : Program) (maxSteps : Nat) :
    (execute lvl maxSteps p).2 ≤ maxSteps ∧
    (∃ c, execCfg lvl p (execute lvl maxSteps p).2 = some c ∧
      (execute lvl maxSteps p).1 = isSolved lvl c.2) ∧
    (∀ m, 0 < m → m < (execute lvl maxSteps p).2 →
      ∀ c, execCfg lvl p m = some c → isSolved lvl c.2 = false) ∧
    ((∀ m, m ≤ maxSteps → ∀ c, execCfg lvl p m = some c → isSolved lvl c.2 = false) →
      (∀ m, m ≤ maxSteps → execCfg lvl p m ≠ none) →
      execute lvl maxSteps p = (false, maxSteps)) := by
  have h := execGo_spec lvl p maxSteps 0 p.main lvl.init rfl
  rw [Nat.zero_add] at h
  exact ⟨h.1, h.2.2.1, h.2.2.2.1, fun hall hexist =>
    h.2.2.2.2 (fun m _ h2 => hall m h2) (fun m _ h2 => hexist m h2)⟩

/-! ## C8 — checkpoint round-trip -/

/-- C8: writing a `SolverCheckpoint` as its key-value document and loading
it back restores every field exactly. -/
theorem checkpoint_round_trip (c : SolverCheckpoint) :
    SolverCheckpoint.fromDict c.toDict = some c := rfl

theorem executor_correct_witness :
    execute lvlA 5 progLoop = (false, 5) := by
  have hcfg : ∀ m, execCfg lvlA progLoop m = some ([Instr.proc1], lvlA.init) := by
    intro m
    induction m with
    | zero => rfl
    | succ n ihn =>
        simp only [execCfg]
        rw [ihn]
        simp [consumeInstr, progLoop]
  exact (executor_correct lvlA progLoop 5).2.2.2
    (fun m _ c hc => by rw [hcfg m] at hc; cases hc; decide)
    (fun m _ => by rw [hcfg m]; simp)

/-! ## C1 — exactness of resume

The proof relates every loop level of the solver to the pure candidate
stream (`candsOfP2` … `candsSizeFrom`) and the order-respecting scan
`validScan`: a *frame* lemma (which state fields a loop writes and how
`programs_tested` advances), a *pure* lemma (under a clock that never
exceeds the timeout the loop returns exactly the scan of its stream), and
a *stitch* lemma (an arbitrary-clock run either matches the scan, or —
when timed out — has tested a prefix of its stream, the checkpointed
indices addressing exactly the rest). -/

theorem validScan_append_some (lvl : Level) (me : Nat) (A B : List Program) (c : Program)
    (h : (validScan lvl me A).1 = some c) :
    validScan lvl me (A ++ B) = (some c, (validScan lvl me A).2) := by
  induction A with
  | nil => simp [validScan] at h
  | cons a rest ih =>
      simp only [validScan, List.cons_append, List.append_eq] at h ⊢
      by_cases hv : isValidProgram a
      · simp only [hv, if_true] at h ⊢
        by_cases hx : (execute lvl me a).1 = true
        · simp only [hx, if_true] at h ⊢
          cases h
          rfl
        · simp only [eq_false_of_ne_true hx, if_false] at h ⊢
          rw [ih h]
          simp
      · simp only [hv, if_false] at h ⊢
        exact ih h

theorem validScan_append_none (lvl : Level) (me : Nat) (A B : List Program)
    (h : (validScan lvl me A).1 = none) :
    validScan lvl me (A ++ B) =
      ((validScan lvl me B).1, (validScan lvl me A).2 ++ (validScan lvl me B).2) := by
  induction A with
  | nil => simp [validScan]
  | cons a rest ih =>
      simp only [validScan, List.cons_append, List.append_eq] at h ⊢
      by_cases hv : isValidProgram a
      · simp only [hv, if_true] at h ⊢
        by_cases hx : (execute lvl me a).1 = true
        · simp only [hx, if_true] at h
          cases h
        · simp only [eq_false_of_ne_true hx, if_false] at h ⊢
          rw [ih h]
          simp
      · simp only [hv, if_false] at h ⊢
        exact ih h

/-- `testCandidate` writes only `programs_tested`, by the length of its
tested list. -/
theorem testCandidate_frame (ctx : RunCtx) (m p1 p2 : List Instr) (st : RunState) :
    framePreserved st (testCandidate ctx m p1 p2 st).2.1 ∧
    (testCandidate ctx m p1 p2 st).2.1.mainIdx = st.mainIdx ∧
    (testCandidate ctx m p1 p2 st).2.1.p1Idx = st.p1Idx ∧
    (testCandidate ctx m p1 p2 st).2.1.p2Idx = st.p2Idx ∧
    (testCandidate ctx m p1 p2 st).2.1.clk = st.clk ∧
    (testCandidate ctx m p1 p2 st).2.1.tested =
      st.tested + (testCandidate ctx m p1 p2 st).2.2.length := by
  simp only [testCandidate, framePreserved]
  split
  · simp
  · split <;> simp

/-- `loopP2` writes only `p2Idx`, `clk` and `tested` (the latter by the
length of its tested list). -/
theorem loopP2_frame (ctx : RunCtx) (t : Int) (m p1 : List Instr) :
    ∀ sq i st,
      framePreserved st (loopP2 ctx t m p1 sq i st).2.2.1 ∧
      (loopP2 ctx t m p1 sq i st).2.2.1.mainIdx = st.mainIdx ∧
      (loopP2 ctx t m p1 sq i st).2.2.1.p1Idx = st.p1Idx ∧
      (loopP2 ctx t m p1 sq i st).2.2.1.tested =
        st.tested + (loopP2 ctx t m p1 sq i st).2.2.2.length := by
  intro sq
  induction sq with
  | nil => intro i st; simp [loopP2, framePreserved]
  | cons p2 rest ih =>
      intro i st
      simp only [loopP2]
      split
      · split
        · simp [framePreserved]
        · rcases htc : testCandidate ctx m p1 p2
              { st with p2Idx := i, clk := st.clk + 1 } with ⟨res, st3, d⟩
          have hfr := testCandidate_frame ctx m p1 p2 { st with p2Idx := i, clk := st.clk + 1 }
          rw [htc] at hfr
          simp only [framePreserved] at hfr
          try simp at hfr
          cases res with
          | some prog => simp only [framePreserved]; simp_all
          | none =>
              simp only []
              have hrec := ih (i + 1) st3
              simp only [framePreserved] at hrec
              obtain ⟨⟨e1, e2, e3, e4, e5⟩, e6, e7, e8⟩ := hrec
              obtain ⟨⟨f1, f2, f3, f4, f5⟩, f6, f7, f8, f9, f10⟩ := hfr
              simp only [framePreserved, List.length_append]
              refine ⟨⟨?_, ?_, ?_, ?_, ?_⟩, ?_, ?_, ?_⟩
              · rw [e1, f1]
              · rw [e2, f2]
              · rw [e3, f3]
              · rw [e4, f4]
              · rw [e5, f5]
              · rw [e6, f6]
              · rw [e7, f7]
              · rw [e8, f10, Nat.add_assoc]
      · rcases htc : testCandidate ctx m p1 p2 { st with p2Idx := i } with ⟨res, st3, d⟩
        have hfr := testCandidate_frame ctx m p1 p2 { st with p2Idx := i }
        rw [htc] at hfr
        simp only [framePreserved] at hfr
        try simp at hfr
        cases res with
        | some prog => simp only [framePreserved]; simp_all
        | none =>
            simp only []
            have hrec := ih (i + 1) st3
            simp only [framePreserved] at hrec
            obtain ⟨⟨e1, e2, e3, e4, e5⟩, e6, e7, e8⟩ := hrec
            obtain ⟨⟨f1, f2, f3, f4, f5⟩, f6, f7, f8, f9, f10⟩ := hfr
            simp only [framePreserved, List.length_append]
            refine ⟨⟨?_, ?_, ?_, ?_, ?_⟩, ?_, ?_, ?_⟩
            · rw [e1, f1]
            · rw [e2, f2]
            · rw [e3, f3]
            · rw [e4, f4]
            · rw [e5, f5]
            · rw [e6, f6]
            · rw [e7, f7]
            · rw [e8, f10, Nat.add_assoc]

/-- `loopP1` writes only `p1Idx`, `p2Idx`, `clk` and `tested`. -/
theorem loopP1_frame (ctx : RunCtx) (t : Int) (m : List Instr)
    (p2full : List (List Instr)) :
    ∀ sq i p2s st,
      framePreserved st (loopP1 ctx t m p2full sq i p2s st).2.2.1 ∧
      (loopP1 ctx t m p2full sq i p2s st).2.2.1.mainIdx = st.mainIdx ∧
      (loopP1 ctx t m p2full sq i p2s st).2.2.1.tested =
        st.tested + (loopP1 ctx t m p2full sq i p2s st).2.2.2.length := by
  intro sq
  induction sq with
  | nil => intro i p2s st; simp [loopP1, framePreserved]
  | cons p1 rest ih =>
      intro i p2s st
      simp only [loopP1]
      rcases hP2 : loopP2 ctx t m p1 (p2full.drop p2s) p2s { st with p1Idx := i }
        with ⟨r2, tmo2, stB, d⟩
      have hf2 := loopP2_frame ctx t m p1 (p2full.drop p2s) p2s { st with p1Idx := i }
      rw [hP2] at hf2
      simp only [framePreserved] at hf2
      try simp at hf2
      obtain ⟨⟨f1, f2, f3, f4, f5⟩, f6, f7, f8⟩ := hf2
      cases r2 with
      | some prog =>
          simp only [framePreserved]
          exact ⟨⟨f1, f2, f3, f4, f5⟩, f6, f8⟩
      | none =>
          cases tmo2 with
          | true =>
              simp only [framePreserved]
              exact ⟨⟨f1, f2, f3, f4, f5⟩, f6, f8⟩
          | false =>
              simp only []
              have hrec := ih (i + 1) 0 stB
              simp only [framePreserved] at hrec
              obtain ⟨⟨e1, e2, e3, e4, e5⟩, e6, e7⟩ := hrec
              simp only [framePreserved, List.length_append]
              refine ⟨⟨?_, ?_, ?_, ?_, ?_⟩, ?_, ?_⟩
              · rw [e1, f1]
              · rw [e2, f2]
              · rw [e3, f3]
              · rw [e4, f4]
              · rw [e5, f5]
              · rw [e6, f6]
              · rw [e7, f8, Nat.add_assoc]

/-- `loopMain` writes only the index fields, `clk` and `tested`. -/
theorem loopMain_frame (ctx : RunCtx) (t : Int) (z1 z2 : Bool)
    (p1full p2full : List (List Instr)) :
    ∀ sq mi p1s p2s st,
      framePreserved st (loopMain ctx t z1 z2 p1full p2full sq mi p1s p2s st).2.2.1 ∧
      (loopMain ctx t z1 z2 p1full p2full sq mi p1s p2s st).2.2.1.tested =
        st.tested + (loopMain ctx t z1 z2 p1full p2full sq mi p1s p2s st).2.2.2.length := by
  intro sq
  induction sq with
  | nil => intro mi p1s p2s st; simp [loopMain, framePreserved]
  | cons mn rest ih =>
      intro mi p1s p2s st
      simp only [loopMain]
      split
      · have hrec := ih (mi + 1) 0 0 { st with mainIdx := mi }
        simp only [framePreserved] at hrec ⊢
        try simp at hrec
        exact hrec
      · rcases hP1 : loopP1 ctx t mn p2full (p1full.drop p1s) p1s p2s { st with mainIdx := mi }
          with ⟨r1, tmo1, stB, d⟩
        have hf1 := loopP1_frame ctx t mn p2full (p1full.drop p1s) p1s p2s
          { st with mainIdx := mi }
        rw [hP1] at hf1
        simp only [framePreserved] at hf1
        try simp at hf1
        obtain ⟨⟨f1, f2, f3, f4, f5⟩, f6, f7⟩ := hf1
        cases r1 with
        | some prog =>
            simp only [framePreserved]
            exact ⟨⟨f1, f2, f3, f4, f5⟩, f7⟩
        | none =>
            cases tmo1 with
            | true =>
                simp only [framePreserved]
                exact ⟨⟨f1, f2, f3, f4, f5⟩, f7⟩
            | false =>
                simp only []
                have hrec := ih (mi + 1) 0 0 stB
                simp only [framePreserved] at hrec
                obtain ⟨⟨e1, e2, e3, e4, e5⟩, e6⟩ := hrec
                simp only [framePreserved, List.length_append]
                refine ⟨⟨?_, ?_, ?_, ?_, ?_⟩, ?_⟩
                · rw [e1, f1]
                · rw [e2, f2]
                · rw [e3, f3]
                · rw [e4, f4]
                · rw [e5, f5]
                · rw [e6, f7, Nat.add_assoc]

/-- `searchDistribution` writes only the index fields, `clk` and
`tested`. -/
theorem searchDistribution_frame (ctx : RunCtx) (t : Int)
    (ms p1s p2s : Nat) (skip : Bool) (st : RunState) :
    framePreserved st (searchDistribution ctx t ms p1s p2s skip st).2.2.1 ∧
    (searchDistribution ctx t ms p1s p2s skip st).2.2.1.tested =
      st.tested + (searchDistribution ctx t ms p1s p2s skip st).2.2.2.length := by
  simp only [searchDistribution]
  exact loopMain_frame ctx t _ _ _ _ _ _ _ _ st

/-- `loopDist` preserves `curSize` and `timeSpent` and advances `tested`
by its tested-list length. -/
theorem loopDist_frame (ctx : RunCtx) (t : Int) :
    ∀ ds skip st,
      (loopDist ctx t ds skip st).2.2.1.curSize = st.curSize ∧
      (loopDist ctx t ds skip st).2.2.1.timeSpent = st.timeSpent ∧
      (loopDist ctx t ds skip st).2.2.1.tested =
        st.tested + (loopDist ctx t ds skip st).2.2.2.length := by
  intro ds
  induction ds with
  | nil => intro skip st; simp [loopDist]
  | cons d rest ih =>
      intro skip st
      simp only [loopDist]
      split
      · simp
      · rcases hSD : searchDistribution ctx t d.1 d.2.1 d.2.2 skip
            { st with curMain := d.1, curP1 := d.2.1, curP2 := d.2.2, clk := st.clk + 1 }
          with ⟨r1, tmo1, stB, dl⟩
        have hfs := searchDistribution_frame ctx t d.1 d.2.1 d.2.2 skip
          { st with curMain := d.1, curP1 := d.2.1, curP2 := d.2.2, clk := st.clk + 1 }
        rw [hSD] at hfs
        simp only [framePreserved] at hfs
        try simp at hfs
        obtain ⟨⟨f1, f2, f3, f4, f5⟩, f6⟩ := hfs
        cases r1 with
        | some prog => exact ⟨f1, f5, f6⟩
        | none =>
            cases tmo1 with
            | true => exact ⟨f1, f5, f6⟩
            | false =>
                simp only []
                have hrec := ih false { stB with mainIdx := 0, p1Idx := 0, p2Idx := 0 }
                try simp at hrec
                obtain ⟨e1, e2, e3⟩ := hrec
                simp only [List.length_append]
                refine ⟨?_, ?_, ?_⟩
                · rw [e1, f1]
                · rw [e2, f5]
                · rw [e3, f6, Nat.add_assoc]

/-- `searchSize` writes the index fields, `cur*`, `clk` and `tested`,
preserving `curSize` and `timeSpent`. -/
theorem searchSize_frame (ctx : RunCtx) (t : Int) (total : Nat) (skip : Bool)
    (st : RunState) :
    (searchSize ctx t total skip st).2.2.1.curSize = st.curSize ∧
    (searchSize ctx t total skip st).2.2.1.timeSpent = st.timeSpent ∧
    (searchSize ctx t total skip st).2.2.1.tested =
      st.tested + (searchSize ctx t total skip st).2.2.2.length := by
  simp only [searchSize]
  exact loopDist_frame ctx t _ _ st

/-- `loopSize` preserves `timeSpent` and advances `tested` by its
tested-list length. -/
theorem loopSize_frame (ctx : RunCtx) (t : Int) :
    ∀ count size skip st,
      (loopSize ctx t count size skip st).2.2.1.timeSpent = st.timeSpent ∧
      (loopSize ctx t count size skip st).2.2.1.tested =
        st.tested + (loopSize ctx t count size skip st).2.2.2.length := by
  intro count
  induction count with
  | zero => intro size skip st; simp [loopSize]
  | succ n ih =>
      intro size skip st
      simp only [loopSize]
      rcases hSS : searchSize ctx t size skip { st with curSize := size }
        with ⟨r1, tmo1, stB, d⟩
      have hfs := searchSize_frame ctx t size skip { st with curSize := size }
      rw [hSS] at hfs
      try simp at hfs
      obtain ⟨f1, f2, f3⟩ := hfs
      cases r1 with
      | some prog => exact ⟨f2, f3⟩
      | none =>
          cases tmo1 with
          | true => exact ⟨f2, f3⟩
          | false =>
              simp only []
              have hrec := ih (size + 1) false { stB with mainIdx := 0, p1Idx := 0, p2Idx := 0, curMain := 1, curP1 := 0, curP2 := 0 }
              try simp at hrec
              obtain ⟨e1, e2⟩ := hrec
              simp only [List.length_append]
              refine ⟨?_, ?_⟩
              · rw [e1, f2]
              · rw [e2, f3, Nat.add_assoc]

/-- Under a clock that never exceeds the timeout, the inner candidate loop
never times out. -/
theorem loopP2_no_timeout (ctx : RunCtx) (t : Int)
    (hno : ∀ k, ¬ (ctx.clock k - t > ctx.timeout)) (m p1 : List Instr) :
    ∀ sq i st, (loopP2 ctx t m p1 sq i st).2.1 = false := by
  intro sq
  induction sq with
  | nil => intro i st; rfl
  | cons p2 rest ih =>
      intro i st
      simp only [loopP2]
      split
      · rw [if_neg (hno _)]
        rcases htc : testCandidate ctx m p1 p2
            { st with p2Idx := i, clk := st.clk + 1 } with ⟨res, st3, d⟩
        cases res with
        | some prog => rfl
        | none => simp only []; exact ih (i + 1) st3
      · rcases htc : testCandidate ctx m p1 p2 { st with p2Idx := i } with ⟨res, st3, d⟩
        cases res with
        | some prog => rfl
        | none => simp only []; exact ih (i + 1) st3

/-- Under a clock that never exceeds the timeout, the PROC1 loop never
times out. -/
theorem loopP1_no_timeout (ctx : RunCtx) (t : Int)
    (hno : ∀ k, ¬ (ctx.clock k - t > ctx.timeout)) (m : List Instr)
    (p2full : List (List Instr)) :
    ∀ sq i p2s st, (loopP1 ctx t m p2full sq i p2s st).2.1 = false := by
  intro sq
  induction sq with
  | nil => intro i p2s st; rfl
  | cons p1 rest ih =>
      intro i p2s st
      simp only [loopP1]
      rcases hP2 : loopP2 ctx t m p1 (p2full.drop p2s) p2s { st with p1Idx := i }
        with ⟨r2, tmo2, stB, d⟩
      have h2 := loopP2_no_timeout ctx t hno m p1 (p2full.drop p2s) p2s { st with p1Idx := i }
      rw [hP2] at h2
      cases r2 with
      | some prog => rfl
      | none =>
          cases tmo2 with
          | true => cases h2
          | false => simp only []; exact ih (i + 1) 0 stB

/-- Under a clock that never exceeds the timeout, the MAIN loop never
times out. -/
theorem loopMain_no_timeout (ctx : RunCtx) (t : Int)
    (hno : ∀ k, ¬ (ctx.clock k - t > ctx.timeout)) (z1 z2 : Bool)
    (p1full p2full : List (List Instr)) :
    ∀ sq mi p1s p2s st, (loopMain ctx t z1 z2 p1full p2full sq mi p1s p2s st).2.1 = false := by
  intro sq
  induction sq with
  | nil => intro mi p1s p2s st; rfl
  | cons mn rest ih =>
      intro mi p1s p2s st
      simp only [loopMain]
      split
      · exact ih (mi + 1) 0 0 _
      · rcases hP1 : loopP1 ctx t mn p2full (p1full.drop p1s) p1s p2s { st with mainIdx := mi }
          with ⟨r1, tmo1, stB, d⟩
        have h1 := loopP1_no_timeout ctx t hno mn p2full (p1full.drop p1s) p1s p2s
          { st with mainIdx := mi }
        rw [hP1] at h1
        cases r1 with
        | some prog => rfl
        | none =>
            cases tmo1 with
            | true => cases h1
            | false => simp only []; exact ih (mi + 1) 0 0 stB

/-- Under a clock that never exceeds the timeout, the distribution loop
never times out. -/
theorem loopDist_no_timeout (ctx : RunCtx) (t : Int)
    (hno : ∀ k, ¬ (ctx.clock k - t > ctx.timeout)) :
    ∀ ds skip st, (loopDist ctx t ds skip st).2.1 = false := by
  intro ds
  induction ds with
  | nil => intro skip st; rfl
  | cons d rest ih =>
      intro skip st
      simp only [loopDist]
      rw [if_neg (hno _)]
      rcases hSD : searchDistribution ctx t d.1 d.2.1 d.2.2 skip
          { st with curMain := d.1, curP1 := d.2.1, curP2 := d.2.2, clk := st.clk + 1 }
        with ⟨r1, tmo1, stB, dl⟩
      have h1 : tmo1 = false := by
        have := loopMain_no_timeout ctx t hno (d.2.1 == 0) (d.2.2 == 0)
          (p1SeqsOf d.2.1 d.2.2) (p2SeqsOf d.2.1 d.2.2)
        have h2 : (searchDistribution ctx t d.1 d.2.1 d.2.2 skip
            { st with curMain := d.1, curP1 := d.2.1, curP2 := d.2.2, clk := st.clk + 1 }).2.1 = false := by
          simp only [searchDistribution]
          exact this _ _ _ _ _
        rw [hSD] at h2
        exact h2
      subst h1
      cases r1 with
      | some prog => rfl
      | none => simp only []; exact ih false { stB with mainIdx := 0, p1Idx := 0, p2Idx := 0 }

/-- Under a clock that never exceeds the timeout, the size loop never
times out. -/
theorem loopSize_no_timeout (ctx : RunCtx) (t : Int)
    (hno : ∀ k, ¬ (ctx.clock k - t > ctx.timeout)) :
    ∀ count size skip st, (loopSize ctx t count size skip st).2.1 = false := by
  intro count
  induction count with
  | zero => intro size skip st; rfl
  | succ n ih =>
      intro size skip st
      simp only [loopSize]
      rcases hSS : searchSize ctx t size skip { st with curSize := size }
        with ⟨r1, tmo1, stB, d⟩
      have h1 : tmo1 = false := by
        have h2 : (searchSize ctx t size skip { st with curSize := size }).2.1 = false := by
          simp only [searchSize]
          exact loopDist_no_timeout ctx t hno _ _ _
        rw [hSS] at h2
        exact h2
      subst h1
      cases r1 with
      | some prog => rfl
      | none =>
          simp only []
          exact ih (size + 1) false { stB with mainIdx := 0, p1Idx := 0, p2Idx := 0, curMain := 1, curP1 := 0, curP2 := 0 }

/-- Equation: an invalid candidate is not counted and not executed. -/
theorem testCandidate_invalid (ctx : RunCtx) (m p1 p2 : List Instr) (st : RunState)
    (hv : isValidProgram { main := m, proc1 := p1, proc2 := p2 } = false) :
    testCandidate ctx m p1 p2 st = (none, st, []) := by
  simp [testCandidate, hv]

/-- Equation: a valid candidate whose execution solves the level is
returned, counted once. -/
theorem testCandidate_solves (ctx : RunCtx) (m p1 p2 : List Instr) (st : RunState)
    (hv : isValidProgram { main := m, proc1 := p1, proc2 := p2 } = true)
    (hx : (execute ctx.lvl ctx.maxExecSteps { main := m, proc1 := p1, proc2 := p2 }).1 = true) :
    testCandidate ctx m p1 p2 st =
      (some { main := m, proc1 := p1, proc2 := p2 }, { st with tested := st.tested + 1 },
        [{ main := m, proc1 := p1, proc2 := p2 }]) := by
  simp [testCandidate, hv, hx]

/-- Equation: a valid candidate whose execution does not solve the level
is counted once and rejected. -/
theorem testCandidate_fails (ctx : RunCtx) (m p1 p2 : List Instr) (st : RunState)
    (hv : isValidProgram { main := m, proc1 := p1, proc2 := p2 } = true)
    (hx : (execute ctx.lvl ctx.maxExecSteps { main := m, proc1 := p1, proc2 := p2 }).1 = false) :
    testCandidate ctx m p1 p2 st =
      (none, { st with tested := st.tested + 1 },
        [{ main := m, proc1 := p1, proc2 := p2 }]) := by
  simp [testCandidate, hv, hx]

theorem candsOfP2_cons (m p1 p2 : List Instr) (l : List (List Instr)) :
    candsOfP2 m p1 (p2 :: l) = { main := m, proc1 := p1, proc2 := p2 } :: candsOfP2 m p1 l := rfl

theorem validScan_cons_invalid {lvl : Level} {me : Nat} {c : Program}
    (hv : isValidProgram c = false) (l : List Program) :
    validScan lvl me (c :: l) = validScan lvl me l := by
  simp [validScan, hv]

theorem validScan_cons_solves {lvl : Level} {me : Nat} {c : Program}
    (hv : isValidProgram c = true) (hx : (execute lvl me c).1 = true) (l : List Program) :
    validScan lvl me (c :: l) = (some c, [c]) := by
  simp [validScan, hv, hx]

theorem validScan_cons_fails {lvl : Level} {me : Nat} {c : Program}
    (hv : isValidProgram c = true) (hx : (execute lvl me c).1 = false) (l : List Program) :
    validScan lvl me (c :: l) = ((validScan lvl me l).1, c :: (validScan lvl me l).2) := by
  simp [validScan, hv, hx]

/-- Stitching for the inner candidate loop: an arbitrary-clock run either
(timed out) has scanned a solution-free prefix of its candidate stream,
with the recorded `p2Idx` addressing exactly the remaining stream, or
(not timed out) returns exactly the scan of its stream. -/
theorem loopP2_stitch (ctx : RunCtx) (t : Int) (m p1 : List Instr)
    (P2full : List (List Instr)) :
    ∀ sq i st, sq = P2full.drop i →
      ((loopP2 ctx t m p1 sq i st).2.1 = true →
        (loopP2 ctx t m p1 sq i st).1 = none ∧
        ∃ pre, candsOfP2 m p1 sq =
            pre ++ candsOfP2 m p1 (P2full.drop (loopP2 ctx t m p1 sq i st).2.2.1.p2Idx) ∧
          validScan ctx.lvl ctx.maxExecSteps pre = (none, (loopP2 ctx t m p1 sq i st).2.2.2)) ∧
      ((loopP2 ctx t m p1 sq i st).2.1 = false →
        (loopP2 ctx t m p1 sq i st).1 =
          (validScan ctx.lvl ctx.maxExecSteps (candsOfP2 m p1 sq)).1 ∧
        (loopP2 ctx t m p1 sq i st).2.2.2 =
          (validScan ctx.lvl ctx.maxExecSteps (candsOfP2 m p1 sq)).2) := by
  intro sq
  induction sq with
  | nil =>
      intro i st _
      exact ⟨(fun h => nomatch h), fun _ => ⟨rfl, rfl⟩⟩
  | cons p2 rest ih =>
      intro i st hsq
      have hdrop : rest = P2full.drop (i + 1) := by
        rw [← List.tail_drop, ← hsq]
        rfl
      have ihr := fun s => ih (i + 1) s hdrop
      simp only [loopP2]
      split
      · split
        · refine ⟨fun _ => ⟨rfl, [], ?_, rfl⟩, (fun h => nomatch h)⟩
          show candsOfP2 m p1 (p2 :: rest) = [] ++ candsOfP2 m p1 (P2full.drop i)
          rw [List.nil_append, hsq]
        · cases hv : isValidProgram { main := m, proc1 := p1, proc2 := p2 } with
          | false =>
              rw [testCandidate_invalid ctx m p1 p2 _ hv]
              simp only [List.nil_append]
              rcases hrec : loopP2 ctx t m p1 rest (i + 1)
                  { st with p2Idx := i, clk := st.clk + 1 } with ⟨res, tmo, st4, d'⟩
              have key := ihr { st with p2Idx := i, clk := st.clk + 1 }
              rw [hrec] at key
              simp only [] at key
              constructor
              · intro h
                obtain ⟨hres, pre2, hsplit, hscan⟩ := key.1 h
                refine ⟨hres, { main := m, proc1 := p1, proc2 := p2 } :: pre2, ?_, ?_⟩
                · rw [candsOfP2_cons, hsplit, List.cons_append]
                · rw [validScan_cons_invalid hv]
                  exact hscan
              · intro h
                obtain ⟨h1, h2⟩ := key.2 h
                rw [candsOfP2_cons, validScan_cons_invalid hv]
                exact ⟨h1, h2⟩
          | true =>
              cases hx : (execute ctx.lvl ctx.maxExecSteps
                  { main := m, proc1 := p1, proc2 := p2 }).1 with
              | true =>
                  rw [testCandidate_solves ctx m p1 p2 _ hv hx]
                  refine ⟨(fun h => nomatch h), fun _ => ?_⟩
                  rw [candsOfP2_cons, validScan_cons_solves hv hx]
                  exact ⟨rfl, rfl⟩
              | false =>
                  rw [testCandidate_fails ctx m p1 p2 _ hv hx]
                  simp only [List.singleton_append]
                  rcases hrec : loopP2 ctx t m p1 rest (i + 1)
                      { st with p2Idx := i, tested := st.tested + 1, clk := st.clk + 1 } with
                    ⟨res, tmo, st4, d'⟩
                  have key := ihr { st with p2Idx := i, tested := st.tested + 1, clk := st.clk + 1 }
                  rw [hrec] at key
                  simp only [] at key
                  constructor
                  · intro h
                    obtain ⟨hres, pre2, hsplit, hscan⟩ := key.1 h
                    refine ⟨hres, { main := m, proc1 := p1, proc2 := p2 } :: pre2, ?_, ?_⟩
                    · rw [candsOfP2_cons, hsplit, List.cons_append]
                    · rw [validScan_cons_fails hv hx, hscan]
                  · intro h
                    obtain ⟨h1, h2⟩ := key.2 h
                    rw [candsOfP2_cons, validScan_cons_fails hv hx]
                    exact ⟨h1, by rw [h2]⟩
      · cases hv : isValidProgram { main := m, proc1 := p1, proc2 := p2 } with
        | false =>
            rw [testCandidate_invalid ctx m p1 p2 _ hv]
            simp only [List.nil_append]
            rcases hrec : loopP2 ctx t m p1 rest (i + 1)
                { st with p2Idx := i } with ⟨res, tmo, st4, d'⟩
            have key := ihr { st with p2Idx := i }
            rw [hrec] at key
            simp only [] at key
            constructor
            · intro h
              obtain ⟨hres, pre2, hsplit, hscan⟩ := key.1 h
              refine ⟨hres, { main := m, proc1 := p1, proc2 := p2 } :: pre2, ?_, ?_⟩
              · rw [candsOfP2_cons, hsplit, List.cons_append]
              · rw [validScan_cons_invalid hv]
                exact hscan
            · intro h
              obtain ⟨h1, h2⟩ := key.2 h
              rw [candsOfP2_cons, validScan_cons_invalid hv]
              exact ⟨h1, h2⟩
        | true =>
            cases hx : (execute ctx.lvl ctx.maxExecSteps
                { main := m, proc1 := p1, proc2 := p2 }).1 with
            | true =>
                rw [testCandidate_solves ctx m p1 p2 _ hv hx]
                refine ⟨(fun h => nomatch h), fun _ => ?_⟩
                rw [candsOfP2_cons, validScan_cons_solves hv hx]
                exact ⟨rfl, rfl⟩
            | false =>
                rw [testCandidate_fails ctx m p1 p2 _ hv hx]
                simp only [List.singleton_append]
                rcases hrec : loopP2 ctx t m p1 rest (i + 1)
                    { st with p2Idx := i, tested := st.tested + 1 } with
                  ⟨res, tmo, st4, d'⟩
                have key := ihr { st with p2Idx := i, tested := st.tested + 1 }
                rw [hrec] at key
                simp only [] at key
                constructor
                · intro h
                  obtain ⟨hres, pre2, hsplit, hscan⟩ := key.1 h
                  refine ⟨hres, { main := m, proc1 := p1, proc2 := p2 } :: pre2, ?_, ?_⟩
                  · rw [candsOfP2_cons, hsplit, List.cons_append]
                  · rw [validScan_cons_fails hv hx, hscan]
                · intro h
                  obtain ⟨h1, h2⟩ := key.2 h
                  rw [candsOfP2_cons, validScan_cons_fails hv hx]
                  exact ⟨h1, by rw [h2]⟩

theorem candsP1From_cons (m : List Instr) (p2full : List (List Instr))
    (p1 : List Instr) (rest : List (List Instr)) (p2start : Nat) :
    candsP1From m p2full (p1 :: rest) p2start =
      candsOfP2 m p1 (p2full.drop p2start) ++ candsP1From m p2full rest 0 := rfl

/-- Stitching for the PROC1 loop: either a timed-out run has scanned a
solution-free prefix, the recorded `p1Idx`/`p2Idx` addressing exactly the
remaining stream, or the run returns the scan of its whole stream. -/
theorem loopP1_stitch (ctx : RunCtx) (t : Int) (m : List Instr)
    (p2Seqs P1full : List (List Instr)) :
    ∀ sq i p2start st, sq = P1full.drop i →
      ((loopP1 ctx t m p2Seqs sq i p2start st).2.1 = true →
        (loopP1 ctx t m p2Seqs sq i p2start st).1 = none ∧
        ∃ pre, candsP1From m p2Seqs sq p2start =
            pre ++ candsP1From m p2Seqs
              (P1full.drop (loopP1 ctx t m p2Seqs sq i p2start st).2.2.1.p1Idx)
              (loopP1 ctx t m p2Seqs sq i p2start st).2.2.1.p2Idx ∧
          validScan ctx.lvl ctx.maxExecSteps pre =
            (none, (loopP1 ctx t m p2Seqs sq i p2start st).2.2.2)) ∧
      ((loopP1 ctx t m p2Seqs sq i p2start st).2.1 = false →
        (loopP1 ctx t m p2Seqs sq i p2start st).1 =
          (validScan ctx.lvl ctx.maxExecSteps (candsP1From m p2Seqs sq p2start)).1 ∧
        (loopP1 ctx t m p2Seqs sq i p2start st).2.2.2 =
          (validScan ctx.lvl ctx.maxExecSteps (candsP1From m p2Seqs sq p2start)).2) := by
  intro sq
  induction sq with
  | nil =>
      intro i p2start st _
      exact ⟨(fun h => nomatch h), fun _ => ⟨rfl, rfl⟩⟩
  | cons p1 rest ih =>
      intro i p2start st hsq
      have hdrop : rest = P1full.drop (i + 1) := by
        rw [← List.tail_drop, ← hsq]
        rfl
      simp only [loopP1]
      rcases hin : loopP2 ctx t m p1 (p2Seqs.drop p2start) p2start { st with p1Idx := i } with
        ⟨res2, tmo2, st2, d⟩
      have hstitch := loopP2_stitch ctx t m p1 p2Seqs (p2Seqs.drop p2start) p2start
        { st with p1Idx := i } rfl
      rw [hin] at hstitch
      simp only [] at hstitch
      have hfr := loopP2_frame ctx t m p1 (p2Seqs.drop p2start) p2start { st with p1Idx := i }
      rw [hin] at hfr
      cases res2 with
      | some prog =>
          cases tmo2 with
          | true => exact absurd (hstitch.1 rfl).1 (by simp)
          | false =>
              obtain ⟨h1, h2⟩ := hstitch.2 rfl
              refine ⟨(fun h => nomatch h), fun _ => ?_⟩
              rw [candsP1From_cons,
                validScan_append_some ctx.lvl ctx.maxExecSteps _ _ prog h1.symm]
              exact ⟨rfl, h2⟩
      | none =>
          cases tmo2 with
          | true =>
              obtain ⟨-, -, hp1, -⟩ := hfr
              refine ⟨fun _ => ⟨rfl, ?_⟩, (fun h => nomatch h)⟩
              obtain ⟨-, pre, hsplitA, hscan⟩ := hstitch.1 rfl
              refine ⟨pre, ?_, hscan⟩
              have hp1i : st2.p2Idx = st2.p2Idx := rfl
              have hp1e : st2.p1Idx = i := by rw [hp1]
              rw [hp1e, ← hsq, candsP1From_cons, candsP1From_cons, hsplitA, List.append_assoc]
          | false =>
              obtain ⟨hA1, hA2⟩ := hstitch.2 rfl
              simp only []
              rcases hrec : loopP1 ctx t m p2Seqs rest (i + 1) 0 st2 with ⟨res3, tmo3, st3, d'⟩
              have key := ih (i + 1) 0 st2 hdrop
              rw [hrec] at key
              simp only [] at key
              constructor
              · intro h
                obtain ⟨hres, pre2, hsplit2, hscan2⟩ := key.1 h
                refine ⟨hres, candsOfP2 m p1 (p2Seqs.drop p2start) ++ pre2, ?_, ?_⟩
                · rw [candsP1From_cons, hsplit2, List.append_assoc]
                · rw [validScan_append_none ctx.lvl ctx.maxExecSteps _ _ hA1.symm, hscan2,
                    ← hA2]
              · intro h
                obtain ⟨k1, k2⟩ := key.2 h
                rw [candsP1From_cons, validScan_append_none ctx.lvl ctx.maxExecSteps _ _ hA1.symm]
                refine ⟨k1, ?_⟩
                rw [hA2, k2]

theorem candsMainFrom_cons (z1 z2 : Bool) (p1full p2full : List (List Instr))
    (mn : List Instr) (rest : List (List Instr)) (p1start p2start : Nat) :
    candsMainFrom z1 z2 p1full p2full (mn :: rest) p1start p2start =
      (if (z1 && mn.contains Instr.proc1) || (z2 && mn.contains Instr.proc2) then []
       else candsP1From mn p2full (p1full.drop p1start) p2start) ++
      candsMainFrom z1 z2 p1full p2full rest 0 0 := rfl

/-- Stitching for the MAIN loop: either a timed-out run has scanned a
solution-free prefix, the recorded indices addressing exactly the
remaining stream, or the run returns the scan of its whole stream. -/
theorem loopMain_stitch (ctx : RunCtx) (t : Int) (z1 z2 : Bool)
    (p1Seqs p2Seqs Mfull : List (List Instr)) :
    ∀ sq mi p1start p2start st, sq = Mfull.drop mi →
      ((loopMain ctx t z1 z2 p1Seqs p2Seqs sq mi p1start p2start st).2.1 = true →
        (loopMain ctx t z1 z2 p1Seqs p2Seqs sq mi p1start p2start st).1 = none ∧
        ∃ pre, candsMainFrom z1 z2 p1Seqs p2Seqs sq p1start p2start =
            pre ++ candsMainFrom z1 z2 p1Seqs p2Seqs
              (Mfull.drop (loopMain ctx t z1 z2 p1Seqs p2Seqs sq mi p1start p2start st).2.2.1.mainIdx)
              (loopMain ctx t z1 z2 p1Seqs p2Seqs sq mi p1start p2start st).2.2.1.p1Idx
              (loopMain ctx t z1 z2 p1Seqs p2Seqs sq mi p1start p2start st).2.2.1.p2Idx ∧
          validScan ctx.lvl ctx.maxExecSteps pre =
            (none, (loopMain ctx t z1 z2 p1Seqs p2Seqs sq mi p1start p2start st).2.2.2)) ∧
      ((loopMain ctx t z1 z2 p1Seqs p2Seqs sq mi p1start p2start st).2.1 = false →
        (loopMain ctx t z1 z2 p1Seqs p2Seqs sq mi p1start p2start st).1 =
          (validScan ctx.lvl ctx.maxExecSteps
            (candsMainFrom z1 z2 p1Seqs p2Seqs sq p1start p2start)).1 ∧
        (loopMain ctx t z1 z2 p1Seqs p2Seqs sq mi p1start p2start st).2.2.2 =
          (validScan ctx.lvl ctx.maxExecSteps
            (candsMainFrom z1 z2 p1Seqs p2Seqs sq p1start p2start)).2) := by
  intro sq
  induction sq with
  | nil =>
      intro mi p1start p2start st _
      exact ⟨(fun h => nomatch h), fun _ => ⟨rfl, rfl⟩⟩
  | cons mn rest ih =>
      intro mi p1start p2start st hsq
      have hdrop : rest = Mfull.drop (mi + 1) := by
        rw [← List.tail_drop, ← hsq]
        rfl
      simp only [loopMain]
      split
      · rename_i hskip
        have key := ih (mi + 1) 0 0 { st with mainIdx := mi } hdrop
        constructor
        · intro h
          obtain ⟨hres, pre, hsplit, hscan⟩ := key.1 h
          refine ⟨hres, pre, ?_, hscan⟩
          rw [candsMainFrom_cons, if_pos hskip, List.nil_append]
          exact hsplit
        · intro h
          obtain ⟨k1, k2⟩ := key.2 h
          rw [candsMainFrom_cons, if_pos hskip, List.nil_append]
          exact ⟨k1, k2⟩
      · rename_i hskip
        rcases hin : loopP1 ctx t mn p2Seqs (p1Seqs.drop p1start) p1start p2start
            { st with mainIdx := mi } with ⟨res2, tmo2, st2, d⟩
        have hstitch := loopP1_stitch ctx t mn p2Seqs p1Seqs (p1Seqs.drop p1start)
          p1start p2start { st with mainIdx := mi } rfl
        rw [hin] at hstitch
        simp only [] at hstitch
        have hfr := loopP1_frame ctx t mn p2Seqs (p1Seqs.drop p1start) p1start p2start
          { st with mainIdx := mi }
        rw [hin] at hfr
        cases res2 with
        | some prog =>
            cases tmo2 with
            | true => exact absurd (hstitch.1 rfl).1 (by simp)
            | false =>
                obtain ⟨h1, h2⟩ := hstitch.2 rfl
                refine ⟨(fun h => nomatch h), fun _ => ?_⟩
                rw [candsMainFrom_cons, if_neg hskip,
                  validScan_append_some ctx.lvl ctx.maxExecSteps _ _ prog h1.symm]
                exact ⟨rfl, h2⟩
        | none =>
            cases tmo2 with
            | true =>
                obtain ⟨-, hmi, -⟩ := hfr
                refine ⟨fun _ => ⟨rfl, ?_⟩, (fun h => nomatch h)⟩
                obtain ⟨-, pre, hsplitA, hscan⟩ := hstitch.1 rfl
                refine ⟨pre, ?_, hscan⟩
                have hmie : st2.mainIdx = mi := by rw [hmi]
                rw [hmie, ← hsq, candsMainFrom_cons, candsMainFrom_cons, if_neg hskip,
                  if_neg hskip, hsplitA, List.append_assoc]
            | false =>
                obtain ⟨hA1, hA2⟩ := hstitch.2 rfl
                simp only []
                rcases hrec : loopMain ctx t z1 z2 p1Seqs p2Seqs rest (mi + 1) 0 0 st2 with
                  ⟨res3, tmo3, st3, d'⟩
                have key := ih (mi + 1) 0 0 st2 hdrop
                rw [hrec] at key
                simp only [] at key
                constructor
                · intro h
                  obtain ⟨hres, pre2, hsplit2, hscan2⟩ := key.1 h
                  refine ⟨hres,
                    candsP1From mn p2Seqs (p1Seqs.drop p1start) p2start ++ pre2, ?_, ?_⟩
                  · rw [candsMainFrom_cons, if_neg hskip, hsplit2, List.append_assoc]
                  · rw [validScan_append_none ctx.lvl ctx.maxExecSteps _ _ hA1.symm, hscan2,
                      ← hA2]
                · intro h
                  obtain ⟨k1, k2⟩ := key.2 h
                  rw [candsMainFrom_cons, if_neg hskip,
                    validScan_append_none ctx.lvl ctx.maxExecSteps _ _ hA1.symm]
                  refine ⟨k1, ?_⟩
                  rw [hA2, k2]

/-- Stitching for `searchDistribution`: the loopMain stitch instantiated
at the start indices the source computes from `skip`. -/
theorem searchDistribution_stitch (ctx : RunCtx) (t : Int) (ms p1s p2s : Nat)
    (skip : Bool) (st : RunState) :
    ((searchDistribution ctx t ms p1s p2s skip st).2.1 = true →
      (searchDistribution ctx t ms p1s p2s skip st).1 = none ∧
      ∃ pre, candsOfDistFrom (ms, p1s, p2s) (if skip then st.mainIdx else 0)
          (if skip then st.p1Idx else 0) (if skip then st.p2Idx else 0) =
        pre ++ candsOfDistFrom (ms, p1s, p2s)
          (searchDistribution ctx t ms p1s p2s skip st).2.2.1.mainIdx
          (searchDistribution ctx t ms p1s p2s skip st).2.2.1.p1Idx
          (searchDistribution ctx t ms p1s p2s skip st).2.2.1.p2Idx ∧
        validScan ctx.lvl ctx.maxExecSteps pre =
          (none, (searchDistribution ctx t ms p1s p2s skip st).2.2.2)) ∧
    ((searchDistribution ctx t ms p1s p2s skip st).2.1 = false →
      (searchDistribution ctx t ms p1s p2s skip st).1 =
        (validScan ctx.lvl ctx.maxExecSteps
          (candsOfDistFrom (ms, p1s, p2s) (if skip then st.mainIdx else 0)
            (if skip then st.p1Idx else 0) (if skip then st.p2Idx else 0))).1 ∧
      (searchDistribution ctx t ms p1s p2s skip st).2.2.2 =
        (validScan ctx.lvl ctx.maxExecSteps
          (candsOfDistFrom (ms, p1s, p2s) (if skip then st.mainIdx else 0)
            (if skip then st.p1Idx else 0) (if skip then st.p2Idx else 0))).2) := by
  simp only [searchDistribution]
  exact loopMain_stitch ctx t (p1s == 0) (p2s == 0) (p1SeqsOf p1s p2s) (p2SeqsOf p1s p2s)
    (mainSeqsOf ms p1s p2s)
    ((mainSeqsOf ms p1s p2s).drop (if skip then st.mainIdx else 0))
    (if skip then st.mainIdx else 0) (if skip then st.p1Idx else 0)
    (if skip then st.p2Idx else 0) st rfl

theorem candsDistFrom_cons (d : Nat × Nat × Nat) (rest : List (Nat × Nat × Nat))
    (idx : Nat × Nat × Nat) :
    candsDistFrom (d :: rest) idx =
      candsOfDistFrom d idx.1 idx.2.1 idx.2.2 ++ candsDistFrom rest (0, 0, 0) := rfl

/-- The generated distributions are pairwise distinct: triples with
different `m` differ in the first component, triples with one `m` differ
in the second. -/
theorem buildDistributions_nodup (total : Nat) : (buildDistributions total).Nodup := by
  unfold buildDistributions
  rw [List.nodup_flatMap]
  constructor
  · intro m _
    refine List.Nodup.map ?_ (List.nodup_range _)
    intro a b hab
    simpa using congrArg (fun p => p.2.1) hab
  · have hp : List.Pairwise (· ≠ ·) (List.range' 1 total) := List.nodup_range' 1 total
    refine hp.imp ?_
    intro a b hne x hxa hxb
    simp only [List.mem_map, List.mem_range] at hxa hxb
    obtain ⟨p1a, -, rfl⟩ := hxa
    obtain ⟨p1b, -, he⟩ := hxb
    exact hne (congrArg Prod.fst he).symm

theorem sortedDistributions_nodup (total : Nat) : (sortedDistributions total).Nodup := by
  unfold sortedDistributions
  exact (List.perm_insertionSort _ _).symm.nodup (buildDistributions_nodup total)

/-- In a duplicate-free list the code's `distributions.index(...)`-style
search finds exactly the position an element was taken from. -/
theorem findIdx_of_nodup {α : Type} [DecidableEq α] (l : List α) (x : α) :
    l.Nodup → ∀ j i, l[j]? = some x →
      List.findIdx? (fun d => d = x) l i = some (i + j) := by
  induction l with
  | nil =>
      intro _ j i hj
      simp at hj
  | cons a rest ih =>
      intro hn j i hj
      rw [List.nodup_cons] at hn
      cases j with
      | zero =>
          simp at hj
          rw [List.findIdx?_cons, if_pos (by simp [hj])]
          simp
      | succ j =>
          simp at hj
          have hxmem : x ∈ rest := by
            have := List.get?_eq_getElem? rest j
            exact List.get?_mem (by rw [this, hj])
          rw [List.findIdx?_cons, if_neg (by simpa using fun he => hn.1 (by rw [he]; exact hxmem)),
            ih hn.2 j (i + 1) hj]
          congr 1
          omega

/-- Stitching for the distribution loop: a timed-out run has scanned a
solution-free prefix; the saved state records the current distribution (at
its physical position `j` in the full list) and the loop indices that
address exactly the remaining stream. -/
theorem loopDist_stitch (ctx : RunCtx) (t : Int) (Dfull : List (Nat × Nat × Nat)) :
    ∀ sq k skipIdx st idx0,
      sq = Dfull.drop k →
      idx0 = (st.mainIdx, st.p1Idx, st.p2Idx) →
      (skipIdx = false → idx0 = (0, 0, 0)) →
      ((loopDist ctx t sq skipIdx st).2.1 = true →
        (loopDist ctx t sq skipIdx st).1 = none ∧
        ∃ pre j,
          Dfull[j]? = some ((loopDist ctx t sq skipIdx st).2.2.1.curMain,
            (loopDist ctx t sq skipIdx st).2.2.1.curP1,
            (loopDist ctx t sq skipIdx st).2.2.1.curP2) ∧
          candsDistFrom sq idx0 =
            pre ++ candsDistFrom (Dfull.drop j)
              ((loopDist ctx t sq skipIdx st).2.2.1.mainIdx,
               (loopDist ctx t sq skipIdx st).2.2.1.p1Idx,
               (loopDist ctx t sq skipIdx st).2.2.1.p2Idx) ∧
          validScan ctx.lvl ctx.maxExecSteps pre =
            (none, (loopDist ctx t sq skipIdx st).2.2.2)) ∧
      ((loopDist ctx t sq skipIdx st).2.1 = false →
        (loopDist ctx t sq skipIdx st).1 =
          (validScan ctx.lvl ctx.maxExecSteps (candsDistFrom sq idx0)).1 ∧
        (loopDist ctx t sq skipIdx st).2.2.2 =
          (validScan ctx.lvl ctx.maxExecSteps (candsDistFrom sq idx0)).2) := by
  intro sq
  induction sq with
  | nil =>
      intro k skipIdx st idx0 _ _ _
      exact ⟨(fun h => nomatch h), fun _ => ⟨rfl, rfl⟩⟩
  | cons d restD ih =>
      obtain ⟨ms, ps⟩ := d
      obtain ⟨p1s, p2s⟩ := ps
      intro k skipIdx st idx0 hsq hidx hz
      have hdrop : restD = Dfull.drop (k + 1) := by
        rw [← List.tail_drop, ← hsq]
        rfl
      have hgetk : Dfull[k]? = some (ms, p1s, p2s) := by
        have h0 : (Dfull.drop k).head? = some (ms, p1s, p2s) := by
          rw [← hsq]
          rfl
        rwa [List.head?_drop] at h0
      simp only [loopDist]
      split
      · refine ⟨fun _ => ⟨rfl, [], k, ?_, ?_, rfl⟩, (fun h => nomatch h)⟩
        · exact hgetk
        · simp only [List.nil_append]
          rw [← hsq, ← hidx]
      · rcases hin : searchDistribution ctx t ms p1s p2s skipIdx
            { st with curMain := ms, curP1 := p1s, curP2 := p2s, clk := st.clk + 1 } with
          ⟨res2, tmo2, st2, dl⟩
        have hstitch := searchDistribution_stitch ctx t ms p1s p2s skipIdx
          { st with curMain := ms, curP1 := p1s, curP2 := p2s, clk := st.clk + 1 }
        rw [hin] at hstitch
        simp only [] at hstitch
        have e1 : (if skipIdx then st.mainIdx else 0) = idx0.1 := by
          cases skipIdx with
          | true => simp [hidx]
          | false => simp [hz rfl]
        have e2 : (if skipIdx then st.p1Idx else 0) = idx0.2.1 := by
          cases skipIdx with
          | true => simp [hidx]
          | false => simp [hz rfl]
        have e3 : (if skipIdx then st.p2Idx else 0) = idx0.2.2 := by
          cases skipIdx with
          | true => simp [hidx]
          | false => simp [hz rfl]
        rw [e1, e2, e3] at hstitch
        cases res2 with
        | some prog =>
            cases tmo2 with
            | true => exact absurd (hstitch.1 rfl).1 (by simp)
            | false =>
                obtain ⟨h1, h2⟩ := hstitch.2 rfl
                refine ⟨(fun h => nomatch h), fun _ => ?_⟩
                rw [candsDistFrom_cons,
                  validScan_append_some ctx.lvl ctx.maxExecSteps _ _ prog h1.symm]
                exact ⟨rfl, h2⟩
        | none =>
            cases tmo2 with
            | true =>
                have hfr := searchDistribution_frame ctx t ms p1s p2s skipIdx
                  { st with curMain := ms, curP1 := p1s, curP2 := p2s, clk := st.clk + 1 }
                rw [hin] at hfr
                obtain ⟨⟨-, g2, g3, g4, -⟩, -⟩ := hfr
                have hc2 : st2.curMain = ms := by rw [g2]
                have hc3 : st2.curP1 = p1s := by rw [g3]
                have hc4 : st2.curP2 = p2s := by rw [g4]
                refine ⟨fun _ => ⟨rfl, ?_⟩, (fun h => nomatch h)⟩
                obtain ⟨-, pre, hsplitA, hscan⟩ := hstitch.1 rfl
                refine ⟨pre, k, ?_, ?_, hscan⟩
                · rw [hc2, hc3, hc4]
                  exact hgetk
                · rw [← hsq, candsDistFrom_cons, candsDistFrom_cons, hsplitA,
                    List.append_assoc]
            | false =>
                obtain ⟨hA1, hA2⟩ := hstitch.2 rfl
                simp only []
                rcases hrec : loopDist ctx t restD false
                    { st2 with mainIdx := 0, p1Idx := 0, p2Idx := 0 } with ⟨res3, tmo3, st3, dl'⟩
                have key := ih (k + 1) false { st2 with mainIdx := 0, p1Idx := 0, p2Idx := 0 }
                  (0, 0, 0) hdrop (by simp) (fun _ => rfl)
                rw [hrec] at key
                simp only [] at key
                constructor
                · intro h
                  obtain ⟨hres, pre2, j2, hget2, hsplit2, hscan2⟩ := key.1 h
                  refine ⟨hres, candsOfDistFrom (ms, p1s, p2s) idx0.1 idx0.2.1 idx0.2.2 ++ pre2,
                    j2, hget2, ?_, ?_⟩
                  · rw [candsDistFrom_cons, hsplit2, List.append_assoc]
                  · rw [validScan_append_none ctx.lvl ctx.maxExecSteps _ _ hA1.symm, hscan2,
                      ← hA2]
                · intro h
                  obtain ⟨k1, k2⟩ := key.2 h
                  rw [candsDistFrom_cons,
                    validScan_append_none ctx.lvl ctx.maxExecSteps _ _ hA1.symm]
                  refine ⟨k1, ?_⟩
                  rw [hA2, k2]

theorem ifBoolTrue {α : Type} (a b : α) : (if (true : Bool) then a else b) = a := rfl

theorem ifBoolFalse {α : Type} (a b : α) : (if (false : Bool) then a else b) = b := rfl

theorem candsOfSize_none (size : Nat) :
    candsOfSize size none = candsDistFrom (sortedDistributions size) (0, 0, 0) := rfl

theorem candsOfSize_some (size : Nat) (dt idx : Nat × Nat × Nat) :
    candsOfSize size (some (dt, idx)) =
      candsDistFrom ((sortedDistributions size).drop
        (resumeIdx (sortedDistributions size) dt)) idx := rfl

/-- In a duplicate-free distribution list, relocation by value recovers
the position. -/
theorem resumeIdx_of_mem {l : List (Nat × Nat × Nat)} {j : Nat} {x : Nat × Nat × Nat}
    (hn : l.Nodup) (hj : l[j]? = some x) : resumeIdx l x = j := by
  unfold resumeIdx
  rw [show l.findIdx? (fun d => d = x) = some (0 + j) from
    findIdx_of_nodup l x hn j 0 hj]
  simp

theorem candsSizeFrom_succ (count size : Nat)
    (resume : Option ((Nat × Nat × Nat) × (Nat × Nat × Nat))) :
    candsSizeFrom (count + 1) size resume =
      candsOfSize size resume ++ candsSizeFrom count (size + 1) none := rfl

/-- Stitching for `_search_size_with_timeout`: on a resumed call the
distribution is relocated with `findIdx?`; since the sorted distribution
list is duplicate-free this lands exactly at the interrupted position. -/
theorem searchSize_stitch (ctx : RunCtx) (t : Int) (total : Nat) (skip : Bool)
    (st : RunState) (resume : Option ((Nat × Nat × Nat) × (Nat × Nat × Nat)))
    (hresT : skip = true →
      resume = some ((st.curMain, st.curP1, st.curP2), (st.mainIdx, st.p1Idx, st.p2Idx)))
    (hresF : skip = false → resume = none)
    (hz : skip = false → st.mainIdx = 0 ∧ st.p1Idx = 0 ∧ st.p2Idx = 0) :
    ((searchSize ctx t total skip st).2.1 = true →
      (searchSize ctx t total skip st).1 = none ∧
      ∃ pre, candsOfSize total resume =
          pre ++ candsOfSize total
            (some (((searchSize ctx t total skip st).2.2.1.curMain,
                    (searchSize ctx t total skip st).2.2.1.curP1,
                    (searchSize ctx t total skip st).2.2.1.curP2),
                   ((searchSize ctx t total skip st).2.2.1.mainIdx,
                    (searchSize ctx t total skip st).2.2.1.p1Idx,
                    (searchSize ctx t total skip st).2.2.1.p2Idx))) ∧
        validScan ctx.lvl ctx.maxExecSteps pre =
          (none, (searchSize ctx t total skip st).2.2.2)) ∧
    ((searchSize ctx t total skip st).2.1 = false →
      (searchSize ctx t total skip st).1 =
        (validScan ctx.lvl ctx.maxExecSteps (candsOfSize total resume)).1 ∧
      (searchSize ctx t total skip st).2.2.2 =
        (validScan ctx.lvl ctx.maxExecSteps (candsOfSize total resume)).2) := by
  cases skip with
  | false =>
      obtain ⟨z1, z2, z3⟩ := hz rfl
      rw [hresF rfl]
      simp only [searchSize, ifBoolFalse, List.drop_zero]
      have base := loopDist_stitch ctx t (sortedDistributions total)
        (sortedDistributions total) 0 false st (0, 0, 0) (by rw [List.drop_zero])
        (by rw [z1, z2, z3]) (fun _ => rfl)
      constructor
      · intro h
        obtain ⟨hres1, pre, j, hget, hsplit, hscan⟩ := base.1 h
        refine ⟨hres1, pre, ?_, hscan⟩
        have hri := resumeIdx_of_mem (sortedDistributions_nodup total) hget
        rw [candsOfSize_none, candsOfSize_some, hri]
        exact hsplit
      · intro h
        obtain ⟨k1, k2⟩ := base.2 h
        rw [candsOfSize_none]
        exact ⟨k1, k2⟩
  | true =>
      rw [hresT rfl]
      simp only [searchSize, ifBoolTrue, eq_self_iff_true, if_true]
      have base := loopDist_stitch ctx t (sortedDistributions total)
        ((sortedDistributions total).drop
          (resumeIdx (sortedDistributions total) (st.curMain, st.curP1, st.curP2)))
        (resumeIdx (sortedDistributions total) (st.curMain, st.curP1, st.curP2))
        true st (st.mainIdx, st.p1Idx, st.p2Idx) rfl rfl (fun hc => nomatch hc)
      constructor
      · intro h
        obtain ⟨hres1, pre, j, hget, hsplit, hscan⟩ := base.1 h
        have hri := resumeIdx_of_mem (sortedDistributions_nodup total) hget
        refine ⟨hres1, pre, ?_, hscan⟩
        rw [candsOfSize_some, candsOfSize_some, hri]
        exact hsplit
      · intro h
        obtain ⟨k1, k2⟩ := base.2 h
        rw [candsOfSize_some]
        exact ⟨k1, k2⟩

/-- Stitching for the size loop of `solve`: a timed-out run has scanned a
solution-free prefix of the whole (sizes x distributions x sequences)
candidate stream, and the saved size, distribution triple and index triple
address exactly the remaining stream; a run that does not time out returns
exactly the scan of its stream. -/
theorem loopSize_stitch (ctx : RunCtx) (t : Int) :
    ∀ count size skip st resume,
      (skip = true →
        resume = some ((st.curMain, st.curP1, st.curP2), (st.mainIdx, st.p1Idx, st.p2Idx))) →
      (skip = false → resume = none) →
      (skip = false → st.mainIdx = 0 ∧ st.p1Idx = 0 ∧ st.p2Idx = 0) →
      ((loopSize ctx t count size skip st).2.1 = true →
        (loopSize ctx t count size skip st).1 = none ∧
        ∃ pre s, s < count ∧
          (loopSize ctx t count size skip st).2.2.1.curSize = size + s ∧
          candsSizeFrom count size resume =
            pre ++ candsSizeFrom (count - s) (loopSize ctx t count size skip st).2.2.1.curSize
              (some (((loopSize ctx t count size skip st).2.2.1.curMain,
                      (loopSize ctx t count size skip st).2.2.1.curP1,
                      (loopSize ctx t count size skip st).2.2.1.curP2),
                     ((loopSize ctx t count size skip st).2.2.1.mainIdx,
                      (loopSize ctx t count size skip st).2.2.1.p1Idx,
                      (loopSize ctx t count size skip st).2.2.1.p2Idx))) ∧
          validScan ctx.lvl ctx.maxExecSteps pre =
            (none, (loopSize ctx t count size skip st).2.2.2)) ∧
      ((loopSize ctx t count size skip st).2.1 = false →
        (loopSize ctx t count size skip st).1 =
          (validScan ctx.lvl ctx.maxExecSteps (candsSizeFrom count size resume)).1 ∧
        (loopSize ctx t count size skip st).2.2.2 =
          (validScan ctx.lvl ctx.maxExecSteps (candsSizeFrom count size resume)).2) := by
  intro count
  induction count with
  | zero =>
      intro size skip st resume _ _ _
      exact ⟨(fun h => nomatch h), fun _ => ⟨rfl, rfl⟩⟩
  | succ count ih =>
      intro size skip st resume hT hF hz
      simp only [loopSize]
      rcases hin : searchSize ctx t size skip { st with curSize := size } with ⟨res2, tmo2, st2, d⟩
      have hstitch := searchSize_stitch ctx t size skip { st with curSize := size } resume
        hT hF hz
      rw [hin] at hstitch
      simp only [] at hstitch
      have hfr := searchSize_frame ctx t size skip { st with curSize := size }
      rw [hin] at hfr
      cases res2 with
      | some prog =>
          cases tmo2 with
          | true => exact absurd (hstitch.1 rfl).1 (by simp)
          | false =>
              obtain ⟨h1, h2⟩ := hstitch.2 rfl
              refine ⟨(fun h => nomatch h), fun _ => ?_⟩
              rw [candsSizeFrom_succ,
                validScan_append_some ctx.lvl ctx.maxExecSteps _ _ prog h1.symm]
              exact ⟨rfl, h2⟩
      | none =>
          cases tmo2 with
          | true =>
              obtain ⟨-, pre, hsplitA, hscan⟩ := hstitch.1 rfl
              have hsz : st2.curSize = size := by rw [hfr.1]
              simp only []
              refine ⟨fun _ => ⟨trivial, pre, 0, ?_, ?_, ?_, hscan⟩, (fun h => nomatch h)⟩
              · omega
              · omega
              · rw [Nat.sub_zero, hsz, candsSizeFrom_succ, candsSizeFrom_succ, hsplitA,
                  List.append_assoc]
          | false =>
              obtain ⟨hA1, hA2⟩ := hstitch.2 rfl
              simp only []
              rcases hrec : loopSize ctx t count (size + 1) false
                  { st2 with mainIdx := 0, p1Idx := 0, p2Idx := 0, curMain := 1, curP1 := 0, curP2 := 0 } with ⟨res3, tmo3, st3, d2⟩
              have key := ih (size + 1) false
                { st2 with mainIdx := 0, p1Idx := 0, p2Idx := 0, curMain := 1, curP1 := 0, curP2 := 0 } none
                (fun h => nomatch h) (fun _ => rfl) (fun _ => by simp)
              rw [hrec] at key
              simp only [] at key
              constructor
              · intro h
                obtain ⟨hres, pre2, s2, hlt, hsz2, hsplit2, hscan2⟩ := key.1 h
                refine ⟨hres, candsOfSize size resume ++ pre2, s2 + 1, ?_, ?_, ?_, ?_⟩
                · omega
                · rw [hsz2]
                  omega
                · rw [Nat.succ_sub_succ, candsSizeFrom_succ, hsplit2, List.append_assoc]
                · rw [validScan_append_none ctx.lvl ctx.maxExecSteps _ _ hA1.symm, hscan2,
                    ← hA2]
              · intro h
                obtain ⟨k1, k2⟩ := key.2 h
                rw [candsSizeFrom_succ,
                  validScan_append_none ctx.lvl ctx.maxExecSteps _ _ hA1.symm]
                refine ⟨k1, ?_⟩
                rw [hA2, k2]

/-! ### Duplicate-freedom of the candidate stream (for the no-retest part
of C1): sequences of one alphabet are pairwise distinct, candidates within
a distribution differ in some sequence, candidates across distributions
and sizes differ in the length profile. -/

theorem seqProd_nodup (instr : List Instr) (hn : instr.Nodup) :
    ∀ n, (seqProd instr n).Nodup := by
  intro n
  induction n with
  | zero => simp [seqProd]
  | succ n ih =>
      simp only [seqProd]
      rw [List.nodup_flatMap]
      constructor
      · intro i _
        refine List.Nodup.map ?_ ih
        intro a b hab
        simpa using congrArg List.tail hab
      · refine hn.imp ?_
        intro a b hne x hxa hxb
        simp only [List.mem_map] at hxa hxb
        obtain ⟨ta, -, rfl⟩ := hxa
        obtain ⟨tb, -, he⟩ := hxb
        have hba : b = a := by simpa using congrArg List.head? he
        exact hne hba.symm

theorem seqProd_length (instr : List Instr) :
    ∀ n s, s ∈ seqProd instr n → s.length = n := by
  intro n
  induction n with
  | zero =>
      intro s hs
      simp only [seqProd, List.mem_singleton] at hs
      simp [hs]
  | succ n ih =>
      intro s hs
      simp only [seqProd, List.mem_flatMap, List.mem_map] at hs
      obtain ⟨i, -, t, ht, rfl⟩ := hs
      simp [ih t ht]

theorem generateSequences_nodup (len : Nat) (instr : List Instr) (h1 h2 : Bool)
    (hn : instr.Nodup) : (generateSequences len instr h1 h2).Nodup := by
  unfold generateSequences
  split
  · simp
  · exact List.Nodup.filter _ (seqProd_nodup instr hn len)

theorem generateSequences_length (len : Nat) (instr : List Instr) (h1 h2 : Bool)
    (s : List Instr) (hs : s ∈ generateSequences len instr h1 h2) : s.length = len := by
  unfold generateSequences at hs
  split at hs
  · rename_i h0
    simp only [List.mem_singleton] at hs
    simp [hs, h0]
  · exact seqProd_length instr len s (List.mem_filter.1 hs).1

theorem mainAlphabet_nodup (p1s p2s : Nat) : (mainAlphabet p1s p2s).Nodup := by
  unfold mainAlphabet
  split <;> decide

theorem getProcInstructions_nodup (a b c : Bool) : (getProcInstructions a b c).Nodup := by
  unfold getProcInstructions
  cases a <;> cases b <;> cases c <;> decide

theorem mainSeqsOf_nodup (ms p1s p2s : Nat) : (mainSeqsOf ms p1s p2s).Nodup :=
  generateSequences_nodup _ _ _ _ (mainAlphabet_nodup p1s p2s)

theorem mainSeqsOf_length (ms p1s p2s : Nat) (s : List Instr)
    (hs : s ∈ mainSeqsOf ms p1s p2s) : s.length = ms :=
  generateSequences_length _ _ _ _ s hs

theorem p1SeqsOf_nodup (p1s p2s : Nat) : (p1SeqsOf p1s p2s).Nodup := by
  unfold p1SeqsOf
  split
  · exact generateSequences_nodup _ _ _ _ (getProcInstructions_nodup _ _ _)
  · decide

theorem p1SeqsOf_length (p1s p2s : Nat) (s : List Instr)
    (hs : s ∈ p1SeqsOf p1s p2s) : s.length = p1s := by
  unfold p1SeqsOf at hs
  split at hs
  · exact generateSequences_length _ _ _ _ s hs
  · rename_i hc
    simp only [List.mem_singleton] at hs
    simp only [hs, List.length_nil]
    omega

theorem p2SeqsOf_nodup (p1s p2s : Nat) : (p2SeqsOf p1s p2s).Nodup := by
  unfold p2SeqsOf
  split
  · exact generateSequences_nodup _ _ _ _ (getProcInstructions_nodup _ _ _)
  · decide

theorem p2SeqsOf_length (p1s p2s : Nat) (s : List Instr)
    (hs : s ∈ p2SeqsOf p1s p2s) : s.length = p2s := by
  unfold p2SeqsOf at hs
  split at hs
  · exact generateSequences_length _ _ _ _ s hs
  · rename_i hc
    simp only [List.mem_singleton] at hs
    simp only [hs, List.length_nil]
    omega

theorem candsOfP2_mem (m p1 : List Instr) (l : List (List Instr)) (x : Program)
    (hx : x ∈ candsOfP2 m p1 l) : x.main = m ∧ x.proc1 = p1 ∧ x.proc2 ∈ l := by
  simp only [candsOfP2, List.mem_map] at hx
  obtain ⟨p2, hp2, rfl⟩ := hx
  exact ⟨rfl, rfl, hp2⟩

theorem candsOfP2_nodup (m p1 : List Instr) (l : List (List Instr)) (hl : l.Nodup) :
    (candsOfP2 m p1 l).Nodup := by
  refine List.Nodup.map ?_ hl
  intro a b hab
  simpa using congrArg Program.proc2 hab

theorem candsP1From_mem (m : List Instr) (p2full : List (List Instr)) :
    ∀ sq p2start x, x ∈ candsP1From m p2full sq p2start →
      x.main = m ∧ x.proc1 ∈ sq ∧ x.proc2 ∈ p2full := by
  intro sq
  induction sq with
  | nil => intro p2start x hx; simp [candsP1From] at hx
  | cons p1 rest ih =>
      intro p2start x hx
      rw [candsP1From_cons, List.mem_append] at hx
      cases hx with
      | inl h =>
          obtain ⟨h1, h2, h3⟩ := candsOfP2_mem m p1 _ x h
          exact ⟨h1, by rw [h2]; exact List.mem_cons_self p1 rest, List.mem_of_mem_drop h3⟩
      | inr h =>
          obtain ⟨h1, h2, h3⟩ := ih 0 x h
          exact ⟨h1, List.mem_cons_of_mem p1 h2, h3⟩

theorem candsP1From_nodup (m : List Instr) (p2full : List (List Instr))
    (hp2 : p2full.Nodup) :
    ∀ sq p2start, sq.Nodup → (candsP1From m p2full sq p2start).Nodup := by
  intro sq
  induction sq with
  | nil => intro p2start _; simp [candsP1From]
  | cons p1 rest ih =>
      intro p2start hsq
      rw [List.nodup_cons] at hsq
      rw [candsP1From_cons]
      refine List.Nodup.append ?_ (ih 0 hsq.2) ?_
      · exact candsOfP2_nodup m p1 _ ((List.drop_sublist _ _).nodup hp2)
      · intro x hx1 hx2
        obtain ⟨-, h2, -⟩ := candsOfP2_mem m p1 _ x hx1
        obtain ⟨-, h2b, -⟩ := candsP1From_mem m p2full rest 0 x hx2
        rw [h2] at h2b
        exact hsq.1 h2b

theorem candsMainFrom_mem (z1 z2 : Bool) (p1full p2full : List (List Instr)) :
    ∀ sq p1start p2start x, x ∈ candsMainFrom z1 z2 p1full p2full sq p1start p2start →
      x.main ∈ sq ∧ x.proc1 ∈ p1full ∧ x.proc2 ∈ p2full := by
  intro sq
  induction sq with
  | nil => intro p1start p2start x hx; simp [candsMainFrom] at hx
  | cons mn rest ih =>
      intro p1start p2start x hx
      rw [candsMainFrom_cons, List.mem_append] at hx
      cases hx with
      | inl h =>
          split at h
          · simp at h
          · obtain ⟨h1, h2, h3⟩ := candsP1From_mem mn p2full _ _ x h
            exact ⟨by rw [h1]; exact List.mem_cons_self mn rest,
              List.mem_of_mem_drop h2, h3⟩
      | inr h =>
          obtain ⟨h1, h2, h3⟩ := ih 0 0 x h
          exact ⟨List.mem_cons_of_mem mn h1, h2, h3⟩

theorem candsMainFrom_nodup (z1 z2 : Bool) (p1full p2full : List (List Instr))
    (hp1 : p1full.Nodup) (hp2 : p2full.Nodup) :
    ∀ sq p1start p2start, sq.Nodup →
      (candsMainFrom z1 z2 p1full p2full sq p1start p2start).Nodup := by
  intro sq
  induction sq with
  | nil => intro p1start p2start _; simp [candsMainFrom]
  | cons mn rest ih =>
      intro p1start p2start hsq
      rw [List.nodup_cons] at hsq
      rw [candsMainFrom_cons]
      refine List.Nodup.append ?_ (ih 0 0 hsq.2) ?_
      · split
        · simp
        · exact candsP1From_nodup mn p2full hp2 _ _ ((List.drop_sublist _ _).nodup hp1)
      · intro x hx1 hx2
        obtain ⟨h1b, -, -⟩ := candsMainFrom_mem z1 z2 p1full p2full rest 0 0 x hx2
        split at hx1
        · simp at hx1
        · obtain ⟨h1, -, -⟩ := candsP1From_mem mn p2full _ _ x hx1
          rw [h1] at h1b
          exact hsq.1 h1b

theorem candsOfDistFrom_mem (d : Nat × Nat × Nat) (mi pi p2i : Nat) (x : Program)
    (hx : x ∈ candsOfDistFrom d mi pi p2i) :
    x.main.length = d.1 ∧ x.proc1.length = d.2.1 ∧ x.proc2.length = d.2.2 := by
  unfold candsOfDistFrom at hx
  obtain ⟨h1, h2, h3⟩ := candsMainFrom_mem _ _ _ _ _ _ _ x hx
  exact ⟨mainSeqsOf_length _ _ _ _ (List.mem_of_mem_drop h1),
    p1SeqsOf_length _ _ _ h2, p2SeqsOf_length _ _ _ h3⟩

theorem candsOfDistFrom_nodup (d : Nat × Nat × Nat) (mi pi p2i : Nat) :
    (candsOfDistFrom d mi pi p2i).Nodup := by
  unfold candsOfDistFrom
  exact candsMainFrom_nodup _ _ _ _ (p1SeqsOf_nodup _ _) (p2SeqsOf_nodup _ _) _ _ _
    ((List.drop_sublist _ _).nodup (mainSeqsOf_nodup _ _ _))

theorem candsDistFrom_mem :
    ∀ (sq : List (Nat × Nat × Nat)) (idx : Nat × Nat × Nat) (x : Program),
      x ∈ candsDistFrom sq idx →
      ∃ d ∈ sq, x.main.length = d.1 ∧ x.proc1.length = d.2.1 ∧ x.proc2.length = d.2.2 := by
  intro sq
  induction sq with
  | nil => intro idx x hx; simp [candsDistFrom] at hx
  | cons d rest ih =>
      intro idx x hx
      rw [candsDistFrom_cons, List.mem_append] at hx
      cases hx with
      | inl h => exact ⟨d, List.mem_cons_self d rest, candsOfDistFrom_mem d _ _ _ x h⟩
      | inr h =>
          obtain ⟨d2, hd2, hx2⟩ := ih (0, 0, 0) x h
          exact ⟨d2, List.mem_cons_of_mem d hd2, hx2⟩

theorem candsDistFrom_nodup :
    ∀ (sq : List (Nat × Nat × Nat)) (idx : Nat × Nat × Nat), sq.Nodup →
      (candsDistFrom sq idx).Nodup := by
  intro sq
  induction sq with
  | nil => intro idx _; simp [candsDistFrom]
  | cons d rest ih =>
      intro idx hsq
      rw [List.nodup_cons] at hsq
      rw [candsDistFrom_cons]
      refine List.Nodup.append (candsOfDistFrom_nodup d _ _ _) (ih (0, 0, 0) hsq.2) ?_
      intro x hx1 hx2
      obtain ⟨h1, h2, h3⟩ := candsOfDistFrom_mem d _ _ _ x hx1
      obtain ⟨d2, hd2, g1, g2, g3⟩ := candsDistFrom_mem rest (0, 0, 0) x hx2
      have hdd : d = d2 := by
        obtain ⟨da, db, dc⟩ := d
        obtain ⟨ea, eb, ec⟩ := d2
        simp only [] at h1 h2 h3 g1 g2 g3
        simp only [Prod.mk.injEq]
        omega
      rw [hdd] at hsq
      exact hsq.1 hd2

theorem buildDistributions_sum (total : Nat) (d : Nat × Nat × Nat)
    (hd : d ∈ buildDistributions total) : d.1 + d.2.1 + d.2.2 = total ∧ 1 ≤ d.1 := by
  unfold buildDistributions at hd
  simp only [List.mem_flatMap, List.mem_map, List.mem_range', List.mem_range] at hd
  obtain ⟨m, hm, p1, hp1, rfl⟩ := hd
  simp only []
  omega

theorem sortedDistributions_sum (total : Nat) (d : Nat × Nat × Nat)
    (hd : d ∈ sortedDistributions total) : d.1 + d.2.1 + d.2.2 = total := by
  have hmem : d ∈ buildDistributions total :=
    ((List.perm_insertionSort _ _).mem_iff).1 hd
  exact (buildDistributions_sum total d hmem).1

theorem candsOfSize_mem_sum (size : Nat) (x : Program)
    (hx : x ∈ candsOfSize size none) :
    x.main.length + x.proc1.length + x.proc2.length = size := by
  rw [candsOfSize_none] at hx
  obtain ⟨d, hd, h1, h2, h3⟩ := candsDistFrom_mem _ _ x hx
  have := sortedDistributions_sum size d hd
  omega

theorem candsSizeFrom_mem_ge :
    ∀ count size x, x ∈ candsSizeFrom count size none →
      size ≤ x.main.length + x.proc1.length + x.proc2.length := by
  intro count
  induction count with
  | zero => intro size x hx; simp [candsSizeFrom] at hx
  | succ count ih =>
      intro size x hx
      rw [candsSizeFrom_succ, List.mem_append] at hx
      cases hx with
      | inl h => rw [candsOfSize_mem_sum size x h]
      | inr h => have := ih (size + 1) x h; omega

theorem candsSizeFrom_nodup :
    ∀ count size, (candsSizeFrom count size none).Nodup := by
  intro count
  induction count with
  | zero => intro size; simp [candsSizeFrom]
  | succ count ih =>
      intro size
      rw [candsSizeFrom_succ]
      refine List.Nodup.append ?_ (ih (size + 1)) ?_
      · rw [candsOfSize_none]
        exact candsDistFrom_nodup _ _ (sortedDistributions_nodup size)
      · intro x hx1 hx2
        have h1 := candsOfSize_mem_sum size x hx1
        have h2 := candsSizeFrom_mem_ge count (size + 1) x hx2
        omega

theorem validScan_sublist (lvl : Level) (me : Nat) :
    ∀ l, (validScan lvl me l).2.Sublist l := by
  intro l
  induction l with
  | nil => simp [validScan]
  | cons c rest ih =>
      simp only [validScan]
      by_cases hv : isValidProgram c
      · simp only [hv, if_true]
        by_cases hx : (execute lvl me c).1 = true
        · simp only [hx, if_true]
          exact (List.nil_sublist rest).cons₂ c
        · simp only [eq_false_of_ne_true hx, if_false]
          exact ih.cons₂ c
      · simp only [hv, if_false]
        exact ih.cons c

/-- C1 (main composition): an interrupted fresh run plus a resumed run
that does not time out cover, in order, exactly the candidate stream of an
uninterrupted run: the uninterrupted tested list is the interrupted list
followed by the resumed list, the resumed run ends with the uninterrupted
total `programs_tested`, and both end with the same solution. -/
theorem solve_resume_decomposition (ctx1 ctx2 ctxF : RunCtx) (maxSize : Nat)
    (fs0 fsF : FSFile)
    (hlvl2 : ctx2.lvl = ctx1.lvl) (hlvlF : ctxF.lvl = ctx1.lvl)
    (hms2 : ctx2.maxExecSteps = ctx1.maxExecSteps)
    (hmsF : ctxF.maxExecSteps = ctx1.maxExecSteps)
    (hli2 : ctx2.levelIndex = ctx1.levelIndex)
    (hno2 : ∀ k, ¬ (ctx2.clock k - ctx2.clock 0 > ctx2.timeout))
    (hnoF : ∀ k, ¬ (ctxF.clock k - ctxF.clock 0 > ctxF.timeout))
    (h1 : (solve ctx1 maxSize false fs0).timedOut = true) :
    (solve ctxF maxSize false fsF).log =
      (solve ctx1 maxSize false fs0).log ++
        (solve ctx2 maxSize true (solve ctx1 maxSize false fs0).fs).log ∧
    (solve ctx2 maxSize true (solve ctx1 maxSize false fs0).fs).tested =
      (solve ctxF maxSize false fsF).tested ∧
    (solve ctx2 maxSize true (solve ctx1 maxSize false fs0).fs).solution =
      (solve ctxF maxSize false fsF).solution ∧
    ∀ p ∈ (solve ctx1 maxSize false fs0).log,
      p ∉ (solve ctx2 maxSize true (solve ctx1 maxSize false fs0).fs).log := by
  rcases hrun1 : loopSize ctx1 (ctx1.clock 0) (maxSize + 1 - 1) 1 false
      { curSize := 1, curMain := 1, curP1 := 0, curP2 := 0, mainIdx := 0, p1Idx := 0, p2Idx := 0, tested := 0, timeSpent := 0, clk := 1 } with
    ⟨sol1, tmo1, stA, log1⟩
  have htmo : tmo1 = true := by
    simp only [solve, ifBoolFalse] at h1
    rw [hrun1] at h1
    exact h1
  have base1 := loopSize_stitch ctx1 (ctx1.clock 0) (maxSize + 1 - 1) 1 false
    { curSize := 1, curMain := 1, curP1 := 0, curP2 := 0, mainIdx := 0, p1Idx := 0, p2Idx := 0, tested := 0, timeSpent := 0, clk := 1 }
    none (fun h => nomatch h) (fun _ => rfl) (fun _ => ⟨rfl, rfl, rfl⟩)
  rw [hrun1] at base1
  simp only [] at base1
  obtain ⟨hres1, pre, s, hslt, hssz, hsplit, hscan⟩ := base1.1 htmo
  have hfr1 := loopSize_frame ctx1 (ctx1.clock 0) (maxSize + 1 - 1) 1 false
    { curSize := 1, curMain := 1, curP1 := 0, curP2 := 0, mainIdx := 0, p1Idx := 0, p2Idx := 0, tested := 0, timeSpent := 0, clk := 1 }
  rw [hrun1] at hfr1
  simp only [] at hfr1
  have hfs1 : (solve ctx1 maxSize false fs0).fs =
      FSFile.valid (mkCkpt ctx1 stA (stA.timeSpent + (ctx1.clock stA.clk - ctx1.clock 0))) := by
    simp only [solve, ifBoolFalse, hrun1, htmo, ifBoolTrue, if_true]
  have hlog1 : (solve ctx1 maxSize false fs0).log = log1 := by
    simp only [solve, ifBoolFalse, hrun1]
  -- the resumed run
  rcases hrun2 : loopSize ctx2 (ctx2.clock 0) (maxSize + 1 - stA.curSize) stA.curSize true
      { curSize := stA.curSize, curMain := stA.curMain, curP1 := stA.curP1, curP2 := stA.curP2, mainIdx := stA.mainIdx, p1Idx := stA.p1Idx, p2Idx := stA.p2Idx, tested := stA.tested, timeSpent := stA.timeSpent + (ctx1.clock stA.clk - ctx1.clock 0), clk := 1 } with
    ⟨sol2, tmo2, stB, log2⟩
  have htmo2 : tmo2 = false := by
    have hh := loopSize_no_timeout ctx2 (ctx2.clock 0) hno2 (maxSize + 1 - stA.curSize)
      stA.curSize true
      { curSize := stA.curSize, curMain := stA.curMain, curP1 := stA.curP1, curP2 := stA.curP2, mainIdx := stA.mainIdx, p1Idx := stA.p1Idx, p2Idx := stA.p2Idx, tested := stA.tested, timeSpent := stA.timeSpent + (ctx1.clock stA.clk - ctx1.clock 0), clk := 1 }
    rw [hrun2] at hh
    exact hh
  have base2 := loopSize_stitch ctx2 (ctx2.clock 0) (maxSize + 1 - stA.curSize) stA.curSize true
    { curSize := stA.curSize, curMain := stA.curMain, curP1 := stA.curP1, curP2 := stA.curP2, mainIdx := stA.mainIdx, p1Idx := stA.p1Idx, p2Idx := stA.p2Idx, tested := stA.tested, timeSpent := stA.timeSpent + (ctx1.clock stA.clk - ctx1.clock 0), clk := 1 }
    (some ((stA.curMain, stA.curP1, stA.curP2), (stA.mainIdx, stA.p1Idx, stA.p2Idx)))
    (fun _ => rfl) (fun h => nomatch h) (fun h => nomatch h)
  rw [hrun2] at base2
  simp only [] at base2
  obtain ⟨k1, k2⟩ := base2.2 htmo2
  rw [hlvl2, hms2] at k1 k2
  have hfr2 := loopSize_frame ctx2 (ctx2.clock 0) (maxSize + 1 - stA.curSize) stA.curSize true
    { curSize := stA.curSize, curMain := stA.curMain, curP1 := stA.curP1, curP2 := stA.curP2, mainIdx := stA.mainIdx, p1Idx := stA.p1Idx, p2Idx := stA.p2Idx, tested := stA.tested, timeSpent := stA.timeSpent + (ctx1.clock stA.clk - ctx1.clock 0), clk := 1 }
  rw [hrun2] at hfr2
  simp only [] at hfr2
  -- the uninterrupted run
  rcases hrunF : loopSize ctxF (ctxF.clock 0) (maxSize + 1 - 1) 1 false
      { curSize := 1, curMain := 1, curP1 := 0, curP2 := 0, mainIdx := 0, p1Idx := 0, p2Idx := 0, tested := 0, timeSpent := 0, clk := 1 } with
    ⟨solF, tmoF, stC, logF⟩
  have htmoF : tmoF = false := by
    have hh := loopSize_no_timeout ctxF (ctxF.clock 0) hnoF (maxSize + 1 - 1) 1 false
      { curSize := 1, curMain := 1, curP1 := 0, curP2 := 0, mainIdx := 0, p1Idx := 0, p2Idx := 0, tested := 0, timeSpent := 0, clk := 1 }
    rw [hrunF] at hh
    exact hh
  have baseF := loopSize_stitch ctxF (ctxF.clock 0) (maxSize + 1 - 1) 1 false
    { curSize := 1, curMain := 1, curP1 := 0, curP2 := 0, mainIdx := 0, p1Idx := 0, p2Idx := 0, tested := 0, timeSpent := 0, clk := 1 }
    none (fun h => nomatch h) (fun _ => rfl) (fun _ => ⟨rfl, rfl, rfl⟩)
  rw [hrunF] at baseF
  simp only [] at baseF
  obtain ⟨f1, f2⟩ := baseF.2 htmoF
  rw [hlvlF, hmsF] at f1 f2
  have hfrF := loopSize_frame ctxF (ctxF.clock 0) (maxSize + 1 - 1) 1 false
    { curSize := 1, curMain := 1, curP1 := 0, curP2 := 0, mainIdx := 0, p1Idx := 0, p2Idx := 0, tested := 0, timeSpent := 0, clk := 1 }
  rw [hrunF] at hfrF
  simp only [] at hfrF
  -- the interrupted prefix followed by the resumed stream is the full stream
  have harith : maxSize + 1 - 1 - s = maxSize + 1 - stA.curSize := by omega
  rw [harith] at hsplit
  have hpre_none : (validScan ctx1.lvl ctx1.maxExecSteps pre).1 = none := by
    rw [hscan]
  have hcomp := validScan_append_none ctx1.lvl ctx1.maxExecSteps pre
    (candsSizeFrom (maxSize + 1 - stA.curSize) stA.curSize
      (some ((stA.curMain, stA.curP1, stA.curP2), (stA.mainIdx, stA.p1Idx, stA.p2Idx))))
    hpre_none
  rw [← hsplit] at hcomp
  have hlogF : logF = log1 ++ log2 := by
    rw [f2, hcomp]
    simp only []
    rw [hscan]
    simp only []
    rw [← k2]
  have hsubl : logF.Sublist (candsSizeFrom (maxSize + 1 - 1) 1 none) := by
    rw [f2]
    exact validScan_sublist _ _ _
  have hnodupF : logF.Nodup := hsubl.nodup (candsSizeFrom_nodup (maxSize + 1 - 1) 1)
  have hdisj : log1.Disjoint log2 := by
    rw [hlogF] at hnodupF
    exact List.disjoint_of_nodup_append hnodupF
  refine ⟨?_, ?_, ?_, ?_⟩
  · rw [hlog1, hfs1]
    simp only [solve, loadCheckpointFile, ifBoolTrue, ifBoolFalse, if_true, mkCkpt]
    rw [if_pos hli2.symm]
    simp only [hrun2, hrunF]
    exact hlogF
  · rw [hfs1]
    simp only [solve, loadCheckpointFile, ifBoolTrue, ifBoolFalse, if_true, mkCkpt]
    rw [if_pos hli2.symm]
    simp only [hrun2, hrunF]
    rw [hfr2.2, hfrF.2, hfr1.2, hlogF, List.length_append]
    omega
  · rw [hfs1]
    simp only [solve, loadCheckpointFile, ifBoolTrue, ifBoolFalse, if_true, mkCkpt]
    rw [if_pos hli2.symm]
    simp only [hrun2, hrunF]
    rw [k1, f1, hcomp]
  · intro p hp1 hp2
    rw [hlog1] at hp1
    rw [hfs1] at hp2
    simp only [solve, loadCheckpointFile, ifBoolTrue, ifBoolFalse, if_true, mkCkpt] at hp2
    rw [if_pos hli2.symm] at hp2
    simp only [hrun2] at hp2
    exact hdisj hp1 hp2

theorem solve_resume_decomposition_witness :
    (solve ctxW1 2 false FSFile.absent).timedOut = true ∧
    ((solve ctxW2 2 false FSFile.absent).log =
      (solve ctxW1 2 false FSFile.absent).log ++
        (solve ctxW2 2 true (solve ctxW1 2 false FSFile.absent).fs).log ∧
    (solve ctxW2 2 true (solve ctxW1 2 false FSFile.absent).fs).tested =
      (solve ctxW2 2 false FSFile.absent).tested ∧
    (solve ctxW2 2 true (solve ctxW1 2 false FSFile.absent).fs).solution =
      (solve ctxW2 2 false FSFile.absent).solution ∧
    ∀ p ∈ (solve ctxW1 2 false FSFile.absent).log,
      p ∉ (solve ctxW2 2 true (solve ctxW1 2 false FSFile.absent).fs).log) := by
  refine ⟨by decide,
    solve_resume_decomposition ctxW1 ctxW2 ctxW2 2 FSFile.absent FSFile.absent
      rfl rfl rfl rfl rfl ?_ ?_ (by decide)⟩
  · intro k
    show ¬ ((0 : Int) - 0 > 10)
    decide
  · intro k
    show ¬ ((0 : Int) - 0 > 10)
    decide

/-! ## C6 — BFS and IDS over the flat space -/

/-- C6 counterexample: on a level whose initial state is already solved,
`BFSSolver.solve` (which tests only post-step states and so can never
return the empty sequence) returns a length-1 solution, while
`IDSSolver.solve` (whose DFS tests solvedness before expanding) returns
the empty sequence — the two optimal-length searches disagree. -/
theorem bfs_ids_divergence :
    isSolved lvlD (Level.init lvlD) = true ∧
    bfsSolve lvlD 3 = some [Instr.walk] ∧
    idsSolve lvlD 3 = some [] ∧
    (bfsSolve lvlD 3).map List.length ≠ (idsSolve lvlD 3).map List.length := by
  decide

/-! ## C9 — checkpoint lifecycle -/

/-- A timed-out inner candidate loop never carries a solution. -/
theorem loopP2_timeout_none (ctx : RunCtx) (t : Int) (m p1 : List Instr) :
    ∀ sq i st, (loopP2 ctx t m p1 sq i st).2.1 = true →
      (loopP2 ctx t m p1 sq i st).1 = none := by
  intro sq
  induction sq with
  | nil => intro i st h; rfl
  | cons p2 rest ih =>
      intro i st
      simp only [loopP2]
      split
      · split
        · intro _; rfl
        · split
          · intro h; simp at h
          · exact ih _ _
      · split
        · intro h; simp at h
        · exact ih _ _

/-- A timed-out PROC1 loop never carries a solution. -/
theorem loopP1_timeout_none (ctx : RunCtx) (t : Int) (m : List Instr)
    (p2Seqs : List (List Instr)) :
    ∀ sq i p2s st, (loopP1 ctx t m p2Seqs sq i p2s st).2.1 = true →
      (loopP1 ctx t m p2Seqs sq i p2s st).1 = none := by
  intro sq
  induction sq with
  | nil => intro i p2s st h; rfl
  | cons p1 rest ih =>
      intro i p2s st
      simp only [loopP1]
      split
      · intro h; simp at h
      · intro _; rfl
      · exact ih _ _ _

/-- A timed-out MAIN loop never carries a solution. -/
theorem loopMain_timeout_none (ctx : RunCtx) (t : Int) (z1 z2 : Bool)
    (p1Seqs p2Seqs : List (List Instr)) :
    ∀ sq mi p1s p2s st, (loopMain ctx t z1 z2 p1Seqs p2Seqs sq mi p1s p2s st).2.1 = true →
      (loopMain ctx t z1 z2 p1Seqs p2Seqs sq mi p1s p2s st).1 = none := by
  intro sq
  induction sq with
  | nil => intro mi p1s p2s st h; rfl
  | cons mn rest ih =>
      intro mi p1s p2s st
      simp only [loopMain]
      split
      · exact ih _ _ _ _
      · split
        · intro h; simp at h
        · intro _; rfl
        · exact ih _ _ _ _

/-- A timed-out distribution loop never carries a solution. -/
theorem loopDist_timeout_none (ctx : RunCtx) (t : Int) :
    ∀ ds skip st, (loopDist ctx t ds skip st).2.1 = true →
      (loopDist ctx t ds skip st).1 = none := by
  intro ds
  induction ds with
  | nil => intro skip st h; rfl
  | cons d rest ih =>
      intro skip st
      simp only [loopDist]
      split
      · intro _; rfl
      · split
        · intro h; simp at h
        · intro _; rfl
        · exact ih _ _

/-- A timed-out size loop never carries a solution. -/
theorem loopSize_timeout_none (ctx : RunCtx) (t : Int) :
    ∀ count size skip st, (loopSize ctx t count size skip st).2.1 = true →
      (loopSize ctx t count size skip st).1 = none := by
  intro count
  induction count with
  | zero => intro size skip st h; rfl
  | succ n ih =>
      intro size skip st
      simp only [loopSize]
      split
      · intro h; simp at h
      · intro _; rfl
      · exact ih _ _ _

/-- C9 (amended): a checkpoint is written exactly when a run of `solve`
returns timed-out (and records this level's index); an existing
checkpoint is deleted when a run finds a solution; a run that neither
times out nor finds a solution leaves the checkpoint file untouched — in
particular a fresh (non-resuming) run does not delete it at start.  On
load, an unparseable checkpoint file or a level-mismatched checkpoint
makes a resuming run behave exactly like a fresh run; but a checkpoint
file whose JSON parses without matching the dataclass fields raises an
uncaught `TypeError` out of `solve` — a fatal error, not a fresh
start. -/
theorem checkpoint_lifecycle (ctx : RunCtx) (maxSize : Nat) (rs : Bool) (fs : FSFile) :
    (∀ r, solveE ctx maxSize rs fs = Except.ok r →
      (r.timedOut = true → ∃ c, r.fs = FSFile.valid c ∧ c.level = ctx.levelIndex) ∧
      (r.solution.isSome = true → r.fs = FSFile.absent) ∧
      (r.timedOut = false → r.solution = none → r.fs = fs)) ∧
    (fs = FSFile.malformed → solveE ctx maxSize true fs = Except.error ()) ∧
    (loadCheckpointE fs = Except.ok none →
      solveE ctx maxSize true fs = Except.ok (solve ctx maxSize false fs)) ∧
    (∀ c, loadCheckpointE fs = Except.ok (some c) → c.level ≠ ctx.levelIndex →
      solveE ctx maxSize true fs = Except.ok (solve ctx maxSize false fs)) := by
  refine ⟨?_, ?_, ?_, ?_⟩
  · intro r hr
    have hr2 : r = solve ctx maxSize rs fs := by
      unfold solveE at hr
      cases rs with
      | false =>
          simp at hr
          exact hr.symm
      | true =>
          cases fs with
          | absent => simp [loadCheckpointE] at hr; exact hr.symm
          | unparseable => simp [loadCheckpointE] at hr; exact hr.symm
          | malformed => simp [loadCheckpointE] at hr
          | valid c => simp [loadCheckpointE] at hr; exact hr.symm
    subst hr2
    refine ⟨?_, ?_, ?_⟩
    · intro h
      simp only [solve] at h ⊢
      rw [h]
      exact ⟨_, rfl, rfl⟩
    · intro h
      cases hb : (solve ctx maxSize rs fs).timedOut with
      | true =>
          simp only [solve] at hb h
          have h0 := loopSize_timeout_none ctx (ctx.clock 0) _ _ _ _ hb
          rw [h0] at h
          simp at h
      | false =>
          simp only [solve] at hb h ⊢
          rw [hb, h]
          simp
    · intro h1 h2
      simp only [solve] at h1 h2 ⊢
      rw [h1, h2]
      simp
  · intro h
    subst h
    rfl
  · intro h
    cases fs with
    | absent => rfl
    | unparseable => rfl
    | malformed => simp [loadCheckpointE] at h
    | valid c => simp [loadCheckpointE] at h
  · intro c hc hne
    cases fs with
    | absent => simp [loadCheckpointE] at hc
    | unparseable => simp [loadCheckpointE] at hc
    | malformed => simp [loadCheckpointE] at hc
    | valid c2 =>
        simp only [loadCheckpointE, Except.ok.injEq, Option.some.injEq] at hc
        subst hc
        simp [solveE, loadCheckpointE, loadCheckpointFile, solve, hne]

/-- Closed counterexample to the claim as stated: a fresh (non-resuming)
run that neither times out nor finds a solution leaves an existing (even
level-matching) checkpoint in place instead of deleting it. -/
theorem fresh_run_keeps_checkpoint :
    (solve ctxB 1 false (FSFile.valid ck0)).resumed = false ∧
    (solve ctxB 1 false (FSFile.valid ck0)).timedOut = false ∧
    (solve ctxB 1 false (FSFile.valid ck0)).solution = none ∧
    ck0.level = ctxB.levelIndex ∧
    (solve ctxB 1 false (FSFile.valid ck0)).fs = FSFile.valid ck0 := by
  refine ⟨by decide, by decide, by decide, by decide, by decide⟩

theorem checkpoint_lifecycle_witness :
    solveE ctxB 1 true FSFile.malformed = Except.error () ∧
    solveE ctxB 1 true FSFile.unparseable = Except.ok (solve ctxB 1 false FSFile.unparseable) ∧
    (solve ctxB 1 false (FSFile.valid ck0)).fs = FSFile.valid ck0 :=
  ⟨(checkpoint_lifecycle ctxB 1 true FSFile.malformed).2.1 rfl,
   (checkpoint_lifecycle ctxB 1 true FSFile.unparseable).2.2.1 rfl,
   ((checkpoint_lifecycle ctxB 1 false (FSFile.valid ck0)).1
      (solve ctxB 1 false (FSFile.valid ck0)) rfl).2.2 (by decide) (by decide)⟩

/-! ## C7 — the optimized procedure solver's pruning is unsound

Expanding a procedure call leaves the engine state unchanged, so
`_execute_with_state_check` records the same state hash twice as soon as a
procedure body is entered a second time and abandons the run, although the
remaining instructions could still newly solve the level. -/

/-- C7 divergence, at the distribution where it bites: the recursive
size-4 program MAIN=[PROC2], PROC2=[WALK, LIGHT, PROC2] walks the 4×1
three-light corridor lighting every light, and the plain search of the
(main 1, proc1 0, proc2 3) distribution returns it; the optimized
executor, whose per-step state hash is unchanged by a procedure-call
expansion, sees a repeated hash at the second PROC2 call, abandons the
run, and the optimized search of the same distribution rejects every
candidate.  (Both full solvers inherit the divergence: the plain solver
returns this program at size 4 while no flat program of size at most 4
can light three lights, so the optimized solver finds nothing.) -/
theorem optimized_solver_diverges :
    (execute lvlC 9 { main := [Instr.proc2], proc1 := [], proc2 := [Instr.walk, Instr.light, Instr.proc2] }).1 = true ∧
    (executeWithStateCheck lvlC 9 { main := [Instr.proc2], proc1 := [], proc2 := [Instr.walk, Instr.light, Instr.proc2] }).1 = false ∧
    psSearchDistribution lvlC 9 1 0 3 =
      some { main := [Instr.proc2], proc1 := [], proc2 := [Instr.walk, Instr.light, Instr.proc2] } ∧
    optSearchDistribution lvlC 9 1 0 3 = none :=
  ⟨rfl, rfl, rfl, rfl⟩
end LightBot